import Mathlib

/-!
# ipresolver: the resolution pipeline of `main.go`

A shallow embedding of `src/main.go` and of the library functions it calls,
followed by theorems about resolver-list selection, the driver's exits, the
worker pool and the result aggregator.

Go strings are modelled as Lean strings (sequences of Unicode code points), so
the model covers the inputs that are valid UTF-8.  Everything the program
obtains from outside (files, HTTP responses, the geolocation service, the
resolver pool, the iteration order of a Go map, the Unicode case table above
ASCII) is a field of `World`.
-/

namespace IPResolver

/-! ## Go standard library: `strings`, `unicode`, `bufio`, `fmt` -/

/-- Go `unicode.ToLower` on one rune: the ASCII range is computed, the rest is
read from the Unicode table `tbl`. -/
def toLowerRune (tbl : Char → Char) (r : Char) : Char :=
  if r.toNat ≤ 127 then
    if 'A' ≤ r ∧ r ≤ 'Z' then Char.ofNat (r.toNat + ('a'.toNat - 'A'.toNat)) else r
  else tbl r

/-- Go `strings.ToLower`: strings of ASCII only go through the byte loop (and
are returned as they are when they hold no upper-case letter), the others
through `strings.Map(unicode.ToLower, s)`. -/
def ToLower (tbl : Char → Char) (s : String) : String :=
  let isASCII := s.toList.all (fun c => decide (c.toNat < 128))
  let hasUpper := s.toList.any (fun c => decide ('A' ≤ c ∧ c ≤ 'Z'))
  if isASCII then
    if !hasUpper then s
    else String.mk (s.toList.map (fun c =>
      if 'A' ≤ c ∧ c ≤ 'Z' then Char.ofNat (c.toNat + ('a'.toNat - 'A'.toNat)) else c))
  else String.mk (s.toList.map (toLowerRune tbl))

/-- Go `unicode.IsSpace`: the Latin-1 cases and the `White_Space` table. -/
def IsSpace (r : Char) : Bool :=
  let n := r.toNat
  if n ≤ 0xFF then
    n = 0x09 ∨ n = 0x0A ∨ n = 0x0B ∨ n = 0x0C ∨ n = 0x0D ∨ n = 0x20 ∨ n = 0x85 ∨ n = 0xA0
  else
    n = 0x1680 ∨ (0x2000 ≤ n ∧ n ≤ 0x200A) ∨ n = 0x2028 ∨ n = 0x2029 ∨ n = 0x202F ∨
      n = 0x205F ∨ n = 0x3000

/-- Go `strings.TrimSpace`: the string without its leading and trailing white
space. -/
def TrimSpace (s : String) : String :=
  String.mk ((s.toList.dropWhile IsSpace).reverse.dropWhile IsSpace).reverse

/-- Go `bufio.MaxScanTokenSize`. -/
def MaxScanTokenSize : Nat := 64 * 1024

/-- Length in bytes of the UTF-8 encoding of a run of characters. -/
def byteLen (l : List Char) : Nat := (l.map Char.utf8Size).sum

/-- Go `bufio.dropCR`: drops one trailing carriage return. -/
def dropCR (l : List Char) : List Char :=
  if l.getLast? = some '\r' then l.dropLast else l

/-- The tokens a `bufio.Scanner` with the default split function `ScanLines`
and the default buffer yields: `cur` is the line read so far.  A line is cut at
`\n`, loses one trailing `\r`, and a last line without `\n` counts when it is
not empty.  Scanning stops for good at a line that does not fit the buffer
(`MaxScanTokenSize` bytes). -/
def scanLinesFrom : List Char → List Char → List String
  | [], cur =>
    if cur = [] then [] else if byteLen cur < MaxScanTokenSize then [String.mk (dropCR cur)] else []
  | c :: rest, cur =>
    if c = '\n' then
      if byteLen cur < MaxScanTokenSize then String.mk (dropCR cur) :: scanLinesFrom rest []
      else []
    else scanLinesFrom rest (cur ++ [c])

/-- All the `Text()` values of `for sc.Scan()` over a reader holding `text`. -/
def scanLines (text : String) : List String := scanLinesFrom text.toList []

/-- Go `fmt.Sprintf("%s,%s", a, b)`. -/
def sprintfPair (a b : String) : String := a ++ "," ++ b

/-! ## Go standard library: `net` (ip.go, parse.go)

`ParseIP` is the parser of Go 1.17 to 1.21.  Go 1.16 and earlier accept an IPv4
component written with a leading zero, and Go 1.22 and later reject an IPv6
group of more than four hexadecimal digits; on every other string, and so on
every address written in the usual way, the releases agree.  `IsGlobalUnicast`
and `String` are the same in every release. -/

/-- Go `net.IP`: a slice of bytes; `nil` is the empty list. -/
abbrev IP := List Nat

def IPv4len : Nat := 4

def IPv6len : Nat := 16

/-- Bigger than we need, not too big to worry about overflow (`net/parse.go`). -/
def big : Nat := 0xFFFFFF

def v4InV6Prefix : IP := [0, 0, 0, 0, 0, 0, 0, 0, 0, 0, 0xff, 0xff]

/-- Go `net.IPv4(a, b, c, d)`: the 16-byte form. -/
def IPv4 (a b c d : Nat) : IP := v4InV6Prefix ++ [a, b, c, d]

def IPv4bcast : IP := IPv4 255 255 255 255

def IPv4zero : IP := IPv4 0 0 0 0

def IPv6unspecified : IP := [0, 0, 0, 0, 0, 0, 0, 0, 0, 0, 0, 0, 0, 0, 0, 0]

def IPv6loopback : IP := [0, 0, 0, 0, 0, 0, 0, 0, 0, 0, 0, 0, 0, 0, 0, 1]

def dtoiLoop : List Char → Nat → Nat → Nat × Nat × Bool
  | [], n, i => if i = 0 then (0, 0, false) else (n, i, true)
  | c :: s, n, i =>
    if '0' ≤ c ∧ c ≤ '9' then
      if n * 10 + (c.toNat - '0'.toNat) ≥ big then (big, i, false)
      else dtoiLoop s (n * 10 + (c.toNat - '0'.toNat)) (i + 1)
    else if i = 0 then (0, 0, false) else (n, i, true)

/-- Go `net.dtoi`: decimal to integer; the value, the characters consumed, and
whether a number was read. -/
def dtoi (s : List Char) : Nat × Nat × Bool := dtoiLoop s 0 0

def xtoiLoop : List Char → Nat → Nat → Nat × Nat × Bool
  | [], n, i => if i = 0 then (0, i, false) else (n, i, true)
  | c :: s, n, i =>
    if '0' ≤ c ∧ c ≤ '9' then
      if n * 16 + (c.toNat - '0'.toNat) ≥ big then (0, i, false)
      else xtoiLoop s (n * 16 + (c.toNat - '0'.toNat)) (i + 1)
    else if 'a' ≤ c ∧ c ≤ 'f' then
      if n * 16 + (c.toNat - 'a'.toNat + 10) ≥ big then (0, i, false)
      else xtoiLoop s (n * 16 + (c.toNat - 'a'.toNat + 10)) (i + 1)
    else if 'A' ≤ c ∧ c ≤ 'F' then
      if n * 16 + (c.toNat - 'A'.toNat + 10) ≥ big then (0, i, false)
      else xtoiLoop s (n * 16 + (c.toNat - 'A'.toNat + 10)) (i + 1)
    else if i = 0 then (0, i, false) else (n, i, true)

/-- Go `net.xtoi`: hexadecimal to integer. -/
def xtoi (s : List Char) : Nat × Nat × Bool := xtoiLoop s 0 0

/-- The loop of Go `net.parseIPv4`: `k` octets are still to read, `i` were read
into `p`. -/
def parseIPv4Octets : Nat → Nat → List Char → List Nat → Option (List Nat × List Char)
  | 0, _, s, p => some (p, s)
  | k + 1, i, s, p =>
    if s = [] then none
    else
      match (if i > 0 then (match s with
                            | '.' :: t => some t
                            | _ => none) else some s) with
      | none => none
      | some s1 =>
        if (dtoi s1).2.2 = false ∨ (dtoi s1).1 > 0xFF then none
        else if (dtoi s1).2.1 > 1 ∧ s1.head? = some '0' then none
        else parseIPv4Octets k (i + 1) (s1.drop (dtoi s1).2.1) (p ++ [(dtoi s1).1])

/-- Go `net.parseIPv4` (Go 1.17 to 1.21): dotted decimal, no leading zeroes,
nothing after the fourth octet. -/
def parseIPv4 (s : List Char) : IP :=
  match parseIPv4Octets IPv4len 0 s [] with
  | some ([a, b, c, d], []) => IPv4 a b c d
  | _ => []

/-- The loop of Go `net.parseIPv6`: `ip` holds the bytes written so far (their
number is the source's `i`), `ellipsis` the position of `::` or -1.  Returns the
bytes, the ellipsis and the unread rest of the string. -/
def parseIPv6Loop : Nat → List Char → List Nat → Int → Option (List Nat × Int × List Char)
  | 0, s, ip, ellipsis => some (ip, ellipsis, s)
  | fuel + 1, s, ip, ellipsis =>
    if ¬ ip.length < IPv6len then some (ip, ellipsis, s)
    else if (xtoi s).2.2 = false ∨ (xtoi s).1 > 0xFFFF then none
    else if (xtoi s).2.1 < s.length ∧ s.get? (xtoi s).2.1 = some '.' then
      if ellipsis < 0 ∧ ip.length ≠ IPv6len - IPv4len then none
      else if ip.length + IPv4len > IPv6len then none
      else
        match parseIPv4 s with
        | [] => none
        | ip4 => some (ip ++ ip4.drop 12, ellipsis, [])
    else
      match s.drop (xtoi s).2.1 with
      | [] => some (ip ++ [(xtoi s).1 / 256, (xtoi s).1 % 256], ellipsis, [])
      | ':' :: [] => none
      | ':' :: ':' :: t =>
        if ellipsis ≥ 0 then none
        else if t = [] then
          some (ip ++ [(xtoi s).1 / 256, (xtoi s).1 % 256], ((ip.length + 2 : Nat) : Int), [])
        else
          parseIPv6Loop fuel t (ip ++ [(xtoi s).1 / 256, (xtoi s).1 % 256])
            ((ip.length + 2 : Nat) : Int)
      | ':' :: t => parseIPv6Loop fuel t (ip ++ [(xtoi s).1 / 256, (xtoi s).1 % 256]) ellipsis
      | _ => none

/-- What Go `net.parseIPv6` does after its loop: the whole string must be used,
and a short address is filled with zeroes at the ellipsis. -/
def parseIPv6Finish (r : List Nat × Int × List Char) : IP :=
  if r.2.2 ≠ [] then []
  else if r.1.length < IPv6len then
    if r.2.1 < 0 then []
    else r.1.take r.2.1.toNat ++ List.replicate (IPv6len - r.1.length) 0 ++ r.1.drop r.2.1.toNat
  else if r.2.1 ≥ 0 then []
  else r.1

/-- Go `net.parseIPv6`. -/
def parseIPv6 (s : List Char) : IP :=
  match s with
  | ':' :: ':' :: [] => List.replicate IPv6len 0
  | ':' :: ':' :: t =>
    match parseIPv6Loop 9 t [] 0 with
    | none => []
    | some r => parseIPv6Finish r
  | _ =>
    match parseIPv6Loop 9 s [] (-1) with
    | none => []
    | some r => parseIPv6Finish r

/-- The scan of Go `net.ParseIP` for the first `.` or `:`; `s` is the whole string. -/
def parseIPScan (s : List Char) : List Char → IP
  | [] => []
  | c :: rest =>
    if c = '.' then parseIPv4 s
    else if c = ':' then parseIPv6 s
    else parseIPScan s rest

/-- Go `net.ParseIP` (Go 1.17 to 1.21): the 16-byte address `s` is the text of,
or `nil`. -/
def ParseIP (s : String) : IP := parseIPScan s.toList s.toList

/-- Go `IP.To4`. -/
def To4 (ip : IP) : IP :=
  if ip.length = IPv4len then ip
  else if ip.length = IPv6len ∧ (ip.take 10).all (fun b => b == 0) ∧
      ip.getD 10 0 = 0xff ∧ ip.getD 11 0 = 0xff then ip.drop 12
  else []

/-- Go `IP.Equal`: an IPv4 address equals its 16-byte form. -/
def IP.Equal (ip x : IP) : Bool :=
  if ip.length = x.length then ip == x
  else if ip.length = IPv4len ∧ x.length = IPv6len then
    x.take 12 == v4InV6Prefix && ip == x.drop 12
  else if ip.length = IPv6len ∧ x.length = IPv4len then
    ip.take 12 == v4InV6Prefix && ip.drop 12 == x
  else false

/-- Go `IP.IsUnspecified`. -/
def IsUnspecified (ip : IP) : Bool := IP.Equal ip IPv4zero || IP.Equal ip IPv6unspecified

/-- Go `IP.IsLoopback`. -/
def IsLoopback (ip : IP) : Bool :=
  if To4 ip ≠ [] then (To4 ip).getD 0 0 = 127 else IP.Equal ip IPv6loopback

/-- Go `IP.IsMulticast`. -/
def IsMulticast (ip : IP) : Bool :=
  if To4 ip ≠ [] then (To4 ip).getD 0 0 / 16 = 0xe
  else ip.length = IPv6len ∧ ip.getD 0 0 = 0xff

/-- Go `IP.IsLinkLocalUnicast`. -/
def IsLinkLocalUnicast (ip : IP) : Bool :=
  if To4 ip ≠ [] then (To4 ip).getD 0 0 = 169 ∧ (To4 ip).getD 1 0 = 254
  else ip.length = IPv6len ∧ ip.getD 0 0 = 0xfe ∧ ip.getD 1 0 / 64 = 2

/-- Go `IP.IsGlobalUnicast`: an address of 4 or 16 bytes that is not the IPv4
broadcast address, unspecified, loopback, multicast or link-local unicast.
Private ranges are not excluded. -/
def IsGlobalUnicast (ip : IP) : Bool :=
  (ip.length = IPv4len ∨ ip.length = IPv6len) &&
    !IP.Equal ip IPv4bcast &&
    !IsUnspecified ip &&
    !IsLoopback ip &&
    !IsMulticast ip &&
    !IsLinkLocalUnicast ip

/-- Go `net.ubtoa`: a byte in decimal. -/
def ubtoa (v : Nat) : List Char :=
  if v < 10 then [Char.ofNat (v + 48)]
  else if v < 100 then [Char.ofNat (v / 10 + 48), Char.ofNat (v % 10 + 48)]
  else [Char.ofNat (v / 100 + 48), Char.ofNat ((v / 10) % 10 + 48), Char.ofNat (v % 10 + 48)]

def hexDigit : List Char := "0123456789abcdef".toList

/-- Go `net.appendHex`: a 16-bit group in hexadecimal without leading zeroes. -/
def appendHex (i : Nat) : List Char :=
  if i = 0 then ['0']
  else ([3, 2, 1, 0] : List Nat).flatMap (fun j =>
    if i / 16 ^ j > 0 then [hexDigit.getD ((i / 16 ^ j) % 16) '0'] else [])

/-- The inner loop of `IP.String`: the end of the run of zero groups at `j`. -/
def zeroRunEnd (p : IP) : Nat → Nat → Nat
  | 0, j => j
  | fuel + 1, j =>
    if j < IPv6len ∧ p.getD j 0 = 0 ∧ p.getD (j + 1) 0 = 0 then zeroRunEnd p fuel (j + 2) else j

/-- The outer loop of `IP.String`: the longest run of zero groups, as
`(e0, e1)`, -1 when there is none. -/
def longestZeroRun (p : IP) : Nat → Nat → Int × Int → Int × Int
  | 0, _, e => e
  | fuel + 1, i, e =>
    if ¬ i < IPv6len then e
    else if zeroRunEnd p 8 i > i ∧ ((zeroRunEnd p 8 i : Nat) : Int) - (i : Int) > e.2 - e.1 then
      longestZeroRun p fuel (zeroRunEnd p 8 i + 2) ((i : Int), ((zeroRunEnd p 8 i : Nat) : Int))
    else longestZeroRun p fuel (i + 2) e

/-- The printing loop of `IP.String` for a 16-byte address. -/
def printGroups (p : IP) (e0 e1 : Int) : Nat → Nat → List Char
  | 0, _ => []
  | fuel + 1, i =>
    if ¬ i < IPv6len then []
    else if (i : Int) = e0 then
      if e1.toNat ≥ IPv6len then [':', ':']
      else [':', ':'] ++ appendHex (p.getD e1.toNat 0 * 256 + p.getD (e1.toNat + 1) 0) ++
        printGroups p e0 e1 fuel (e1.toNat + 2)
    else
      (if i > 0 then [':'] else []) ++ appendHex (p.getD i 0 * 256 + p.getD (i + 1) 0) ++
        printGroups p e0 e1 fuel (i + 2)

/-- Go `IP.String`: dotted decimal for an IPv4 address (also in its 16-byte
form), RFC 5952 text for the other 16-byte addresses. -/
def IP.String (ip : IP) : String :=
  if ip.length = 0 then "<nil>"
  else if (To4 ip).length = IPv4len then
    String.mk (ubtoa ((To4 ip).getD 0 0) ++ ['.'] ++ ubtoa ((To4 ip).getD 1 0) ++ ['.'] ++
      ubtoa ((To4 ip).getD 2 0) ++ ['.'] ++ ubtoa ((To4 ip).getD 3 0))
  else if ip.length ≠ IPv6len then
    String.mk ('?' :: ip.flatMap (fun b => [hexDigit.getD (b / 16) '0', hexDigit.getD (b % 16) '0']))
  else
    let e := longestZeroRun ip 9 0 (-1, -1)
    if e.2 - e.1 ≤ 2 then String.mk (printGroups ip (-1) (-1) 9 0)
    else String.mk (printGroups ip e.1 e.2 9 0)

/-! ## The outside world

The model is of runs in which the Go run-time has the memory it asks for. -/

/-- Amass `requests.DNSAnswer`: the fields of one resource record of a reply. -/
structure DNSAnswer where
  Name : String
  Typ : Int
  TTL : Int
  Data : String
  deriving DecidableEq, Repr

/-- A resolver pool as `main` uses it: `pool k domain` is what
`pool.Resolve(ctx, domain, "A", resolvers.PriorityHigh)` returns for the job
that was received from the channel as number `k`: the answers, or `none` when
`err != nil`. -/
abbrev Pool := Nat → String → Option (List DNSAnswer)

/-- Everything `main` obtains from outside the program. -/
structure World where
  /-- The Unicode lower-case table, read above ASCII only. -/
  unicodeToLower : Char → Char
  /-- The order in which `range` over a Go map yields the given keys. -/
  mapRange : List String → List String
  /-- Amass `http.ClientCountryCode()`: empty when the lookup fails. -/
  ClientCountryCode : String
  /-- Amass `http.RequestWebPage(url, ...)`: the page, or the error. -/
  RequestWebPage : String → Except String String
  /-- What `os.Open(path)` followed by reading the file gives: the text, or the error. -/
  Open : String → Except String String
  /-- Amass `resolvers.SetupResolverPool(list, false, false, nil)`: `none` is the nil pool. -/
  SetupResolverPool : List String → Option Pool
  /-- The largest capacity `make(chan string, n)` accepts on the platform. -/
  maxChanSize : Nat

/-- A Go map yields every key once, in an order of its own. -/
def World.lawful (w : World) : Prop := ∀ keys : List String, (w.mapRange keys).Perm keys

/-! ## Amass `stringset`

The package `github.com/OWASP/Amass/v3/stringset` that main.go imports
(`stringset/stringset.go`): a `Set` is a `map[string]nothing` whose methods
`Insert`, `Has` and `Remove` apply `strings.ToLower` to the element, and `Slice`
fills its result in a `for key := range s` loop. -/

/-- Amass `stringset.Set.Insert`: the set is keyed by the lower-cased element.
A set is held as the list of its keys. -/
def stringsetInsert (w : World) (s : List String) (element : String) : List String :=
  if ToLower w.unicodeToLower element ∈ s then s else s ++ [ToLower w.unicodeToLower element]

/-- Amass `stringset.New(initial...)`. -/
def stringsetNew (w : World) (initial : List String) : List String :=
  initial.foldl (stringsetInsert w) []

/-- Amass `stringset.Deduplicate`, which is `New(input...).Slice()`; `Slice`
ranges over the map. -/
def Deduplicate (w : World) (input : List String) : List String :=
  w.mapRange (stringsetNew w input)

/-! ## main.go -/

def publicDNSResolverBaseURL : String := "https://public-dns.info/nameserver/"

/-- The package-level flag variables after `flag.Parse()`. -/
structure Flags where
  inputFile : String
  threads : Int
  resolverFile : String
  onlyIp : Bool
  PublicDNS : Bool

/-- The loop of `removeDuplicated`; `seen` is the Go map, as the list of its
bindings, the newest first. -/
def removeDuplicatedLoop : List String → List (String × Bool) → List String → List String
  | [], _, uniqList => uniqList
  | ip :: rest, seen, uniqList =>
    if (seen.lookup ip).isSome then removeDuplicatedLoop rest seen uniqList
    else removeDuplicatedLoop rest ((ip, true) :: seen) (uniqList ++ [ip])

/-- `removeDuplicated` of main.go. -/
def removeDuplicated (ips : List String) : List String := removeDuplicatedLoop ips [] []

/-- The loop of `getWordList` over the scanner's tokens.  `scanner.Err()` is
nil whenever `Scan` has returned true, so the test left is `w != ""`. -/
def getWordListLoop : List String → List String → List String
  | [], words => words
  | t :: rest, words =>
    if TrimSpace t ≠ "" then getWordListLoop rest (words ++ [TrimSpace t])
    else getWordListLoop rest words

/-- `getWordList` of main.go: the word list and the error (`none` is nil). -/
def getWordList (w : World) (reader : String) : List String × Option String :=
  (Deduplicate w (getWordListLoop (scanLines reader) []), none)

/-- `getWordlistByURL` of main.go. -/
def getWordlistByURL (w : World) (url : String) : List String × Option String :=
  match w.RequestWebPage url with
  | .error err => ([], some ("Failed to obtain the wordlist at " ++ url ++ ": " ++ err))
  | .ok page => getWordList w page

/-- A call `main` makes to the outside. -/
inductive Event where
  | ClientCountryCode
  | RequestWebPage (url : String)
  | Open (path : String)
  | SetupResolverPool (resolvers : List String)
  | Resolve (domain : String)
  deriving DecidableEq, Repr

/-- The calls that go to the network: all but opening a file. -/
def Event.isNetwork : Event → Bool
  | .Open _ => false
  | _ => true

/-- How the process ends. -/
inductive Termination where
  /-- `main` returns. -/
  | returned
  /-- `os.Exit(code)`. -/
  | exit (code : Nat)
  /-- `panic(err)` or a run-time panic, with its message. -/
  | panic (msg : String)
  /-- The main goroutine blocks for ever: the process does not end by itself. -/
  | blocked
  /-- The run-time ends the process after a torn read of `answers`, before
  anything is printed. -/
  | crash
  deriving DecidableEq, Repr

/-- The exit status of the process, when it ends: 2 after a panic or a fatal
error of the run-time. -/
def Termination.status : Termination → Option Nat
  | .returned => some 0
  | .exit code => some code
  | .panic _ => some 2
  | .blocked => none
  | .crash => some 2

/-- The country code `cc` of `main`. -/
def countryCode (w : World) : String :=
  if w.ClientCountryCode ≠ "" then w.ClientCountryCode else "us"

/-- The branch `if PublicDNS` of `main` (lines 46-60): the calls made and the
resulting `resolversList`. -/
def publicDNSResolvers (w : World) : List Event × List String :=
  if (getWordlistByURL w (publicDNSResolverBaseURL ++ countryCode w ++ ".txt")).2 = none ∧
      (getWordlistByURL w (publicDNSResolverBaseURL ++ countryCode w ++ ".txt")).1.length ≥ 50 then
    ([.ClientCountryCode, .RequestWebPage (publicDNSResolverBaseURL ++ countryCode w ++ ".txt")],
      Deduplicate w (getWordlistByURL w (publicDNSResolverBaseURL ++ countryCode w ++ ".txt")).1)
  else if countryCode w ≠ "us" then
    if (getWordlistByURL w (publicDNSResolverBaseURL ++ "us.txt")).2 = none then
      ([.ClientCountryCode, .RequestWebPage (publicDNSResolverBaseURL ++ countryCode w ++ ".txt"),
          .RequestWebPage (publicDNSResolverBaseURL ++ "us.txt")],
        Deduplicate w (getWordlistByURL w (publicDNSResolverBaseURL ++ "us.txt")).1)
    else
      ([.ClientCountryCode, .RequestWebPage (publicDNSResolverBaseURL ++ countryCode w ++ ".txt"),
          .RequestWebPage (publicDNSResolverBaseURL ++ "us.txt")], [])
  else
    ([.ClientCountryCode, .RequestWebPage (publicDNSResolverBaseURL ++ countryCode w ++ ".txt")], [])

/-- The built-in resolvers of `main` (lines 72-81). -/
def defaultResolvers : List String :=
  ["1.1.1.1:53", "8.8.8.8:53", "64.6.64.6:53", "77.88.8.8:53", "74.82.42.42:53",
    "1.0.0.1:53", "8.8.4.4:53", "77.88.8.1:53"]

/-- Lines 44-82 of `main`: the calls made, and `resolversList` or the message
of the panic. -/
def resolversList (w : World) (f : Flags) : List Event × Except String (List String) :=
  if f.PublicDNS then ((publicDNSResolvers w).1, .ok (publicDNSResolvers w).2)
  else if f.resolverFile ≠ "" then
    match w.Open f.resolverFile with
    | .error err => ([.Open f.resolverFile], .error err)
    | .ok text => ([.Open f.resolverFile], .ok (scanLines text))
  else ([], .ok defaultResolvers)

/-! ### The worker pool (lines 95-122)

The goroutines share `jobChan` and the slice `answers`.  Receiving from the
channel is safe; line 112, `answers = append(answers, ans...)`, reads and
writes the slice without a lock.  A worker's read and write of the slice are
two steps of the model, so two workers can read the same value and the later
write replaces the earlier one.  A read can also overlap another worker's
write: a slice header is three words (pointer, length, capacity), and the
reader then holds a header that mixes two slices.  Go gives such a run no
meaning; the run-time can end the process with a fatal error, and that is how
the model ends it.  With one worker neither can happen and the model is the
sequential loop. -/

/-- Where a worker goroutine stands. -/
inductive Worker where
  /-- At `for domain := range jobChan`. -/
  | waiting
  /-- `Resolve` has returned and `ans` is built; `answers` is not read yet. -/
  | resolved (ans : List DNSAnswer)
  /-- Line 112 has read `answers` as `old`; the result of `append` is not stored yet. -/
  | appending (old ans : List DNSAnswer)
  /-- The loop has ended and `wg.Done()` has run. -/
  | finished
  deriving DecidableEq, Repr

/-- The state the goroutines share.  `jobChan` holds the jobs no worker has
received yet, in the order the producer sends them; `fault` says that a worker
has read the header of `answers` while another was writing it. -/
structure PoolState where
  jobChan : List String
  received : Nat
  answers : List DNSAnswer
  threads : Nat
  workers : Nat → Worker
  resolves : List String
  fault : Bool

/-- Lines 106-111: `ans` after the call of `Resolve`. -/
def batch (r : Option (List DNSAnswer)) : List DNSAnswer :=
  match r with
  | some a => if a.length > 0 then a else []
  | none => []

/-- One step of worker `i`.  Line 112, `answers = append(answers, ans...)`,
is two steps, the read of `answers` and the write of the result, since the
source takes no lock around it. -/
def workerStep (pool : Pool) (i : Nat) (s : PoolState) : PoolState :=
  if i < s.threads then
    match s.workers i with
    | .waiting =>
      match s.jobChan with
      | [] => { s with workers := Function.update s.workers i .finished }
      | domain :: rest =>
        { s with
          jobChan := rest
          received := s.received + 1
          workers := Function.update s.workers i (.resolved (batch (pool s.received domain)))
          resolves := s.resolves ++ [domain] }
    | .resolved ans => { s with workers := Function.update s.workers i (.appending s.answers ans) }
    | .appending old ans =>
      { s with answers := old ++ ans, workers := Function.update s.workers i .waiting }
    | .finished => s
  else s

/-- Whether worker `i` is about to read `answers` (line 112). -/
def Worker.aboutToRead : Worker → Bool
  | .resolved _ => true
  | _ => false

/-- Whether a worker has its write of `answers` (line 112) still to do. -/
def Worker.aboutToWrite : Worker → Bool
  | .appending _ _ => true
  | _ => false

/-- The read of `answers` by worker `i` can overlap a write of it: worker `i`
is about to read and another worker is about to write. -/
def tornReadPossible (i : Nat) (s : PoolState) : Bool :=
  decide (i < s.threads) && (s.workers i).aboutToRead &&
    (List.range s.threads).any (fun j => decide (j ≠ i) && (s.workers j).aboutToWrite)

/-- What happens next among the workers. -/
inductive Action where
  /-- Worker `i` takes its next step. -/
  | step (i : Nat)
  /-- Worker `i` reads the header of `answers` while another worker writes it. -/
  | tornRead (i : Nat)
  deriving DecidableEq, Repr

/-- The state after one action.  After a torn read nothing more is modelled. -/
def perform (pool : Pool) (s : PoolState) : Action → PoolState
  | .step i => if s.fault then s else workerStep pool i s
  | .tornRead i => if tornReadPossible i s then { s with fault := true } else s

/-- The state when the workers have been started and the producer is about to
send `jobs`. -/
def startWorkers (threads : Nat) (jobs : List String) : PoolState :=
  { jobChan := jobs, received := 0, answers := [], threads := threads,
    workers := fun _ => .waiting, resolves := [], fault := false }

/-- Worker `i` runs alone until its loop ends. -/
def runToEnd (pool : Pool) (s : PoolState) (i : Nat) : PoolState :=
  (fun t => perform pool t (.step i))^[3 * s.jobChan.length + 3] s

/-- The workers run as `schedule` says; the workers that have not ended by then
run to their end one after the other.  The result is the state at `wg.Wait()`,
or the state at the torn read. -/
def runWorkers (pool : Pool) (threads : Nat) (jobs : List String) (schedule : List Action) :
    PoolState :=
  (List.range threads).foldl (runToEnd pool) (schedule.foldl (perform pool) (startWorkers threads jobs))

/-! ### The aggregator (lines 124-140) -/

/-- The line lines 128-133 append for an accepted answer. -/
def formatLine (onlyIp : Bool) (ans : DNSAnswer) : String :=
  if onlyIp then (ParseIP ans.Data).String
  else sprintfPair ans.Name (ParseIP ans.Data).String

/-- The loop of lines 125-135 building `rawResultsList`. -/
def rawResultsLoop (onlyIp : Bool) : List DNSAnswer → List String → List String
  | [], rawResultsList => rawResultsList
  | ans :: rest, rawResultsList =>
    if IsGlobalUnicast (ParseIP ans.Data) then
      if onlyIp then rawResultsLoop onlyIp rest (rawResultsList ++ [(ParseIP ans.Data).String])
      else rawResultsLoop onlyIp rest
        (rawResultsList ++ [sprintfPair ans.Name (ParseIP ans.Data).String])
    else rawResultsLoop onlyIp rest rawResultsList

/-- Lines 124-140: the lines printed for the collected `answers`. -/
def aggregate (onlyIp : Bool) (answers : List DNSAnswer) : List String :=
  removeDuplicated (rawResultsLoop onlyIp answers [])

/-! ### The driver -/

/-- What a run of the program did: its calls to the outside in order, the lines
on standard output, and how it ended. -/
structure Run where
  trace : List Event
  stdout : List String
  exit : Termination

/-- The job strings of lines 117-120: the lines of the input, lower-cased. -/
def jobsOf (w : World) (text : String) : List String :=
  (scanLines text).map (ToLower w.unicodeToLower)

/-- The value of a Go `int` expression on a 64-bit platform: the mathematical
value wrapped around to the range of `int64`. -/
def wrapInt (n : Int) : Int := (n + 2 ^ 63) % 2 ^ 64 - 2 ^ 63

/-- `main` of main.go after `flag.Parse()`, with the workers acting as
`schedule` says; `threads` holds an `int`.  `make(chan string, threads*2)`
panics when the capacity, computed with wrap-around, is negative or more than
the platform accepts.  With `threads <= 0` no worker is started: the producer
sends until the channel is full, blocks for ever when the jobs do not fit, and
otherwise the run ends with nothing looked up. -/
def main (w : World) (f : Flags) (schedule : List Action) : Run :=
  if f.inputFile = "" then ⟨[], ["Please check your input file."], .exit 0⟩
  else
    match resolversList w f with
    | (tr, .error err) => ⟨tr, [], .panic err⟩
    | (tr, .ok rl) =>
      match w.Open f.inputFile with
      | .error err => ⟨tr ++ [.Open f.inputFile], [], .panic err⟩
      | .ok text =>
        match w.SetupResolverPool rl with
        | none =>
          ⟨tr ++ [.Open f.inputFile, .SetupResolverPool rl], ["Failed to init pool"], .exit 0⟩
        | some pool =>
          if wrapInt (f.threads * 2) < 0 ∨ wrapInt (f.threads * 2) > (w.maxChanSize : Int) then
            ⟨tr ++ [.Open f.inputFile, .SetupResolverPool rl], [],
              .panic "makechan: size out of range"⟩
          else if f.threads ≤ 0 then
            if (jobsOf w text).length > (wrapInt (f.threads * 2)).toNat then
              ⟨tr ++ [.Open f.inputFile, .SetupResolverPool rl], [], .blocked⟩
            else ⟨tr ++ [.Open f.inputFile, .SetupResolverPool rl], [], .returned⟩
          else if (runWorkers pool f.threads.toNat (jobsOf w text) schedule).fault then
            ⟨tr ++ [.Open f.inputFile, .SetupResolverPool rl] ++
                (runWorkers pool f.threads.toNat (jobsOf w text) schedule).resolves.map .Resolve,
              [], .crash⟩
          else
            ⟨tr ++ [.Open f.inputFile, .SetupResolverPool rl] ++
                (runWorkers pool f.threads.toNat (jobsOf w text) schedule).resolves.map .Resolve,
              aggregate f.onlyIp
                (runWorkers pool f.threads.toNat (jobsOf w text) schedule).answers,
              .returned⟩

/-! ## Specification functions -/

/-- The first occurrences of the elements of a list, in the order of the list:
the head, then the first occurrences of the tail that differ from it. -/
def firstOccurrences : List String → List String
  | [] => []
  | x :: xs => x :: (firstOccurrences xs).filter (fun y => decide (y ≠ x))

/-! ## Auxiliary notions used by the statements -/

/-- The steps a worker that runs alone takes until its loop ends, with `q` jobs
in the channel. -/
def Worker.stepsLeft (q : Nat) : Worker → Nat
  | .waiting => 3 * q + 1
  | .resolved _ => 3 * q + 3
  | .appending _ _ => 3 * q + 2
  | .finished => 0

/-- The channel holds the jobs not yet received, the names looked up so far
are the jobs received, and a worker has ended only if the channel is empty. -/
def JobsInOrder (jobs : List String) (s : PoolState) : Prop :=
  s.jobChan = jobs.drop s.received ∧ s.resolves = jobs.take s.received ∧
    ∀ i, s.workers i = .finished → s.jobChan = []

/-- A pool that answers every name with one record of that name. -/
def echoPool : Pool := fun _ d => some [⟨d, 1, 0, "93.184.216.34"⟩]

/-- A world without network access to the resolver directory: an input file
`domains.txt` of two lines, no other file, and a pool for every non-empty
resolver list. -/
def demoWorld : World where
  unicodeToLower := id
  mapRange := id
  ClientCountryCode := "de"
  RequestWebPage := fun _ => .error "connection refused"
  Open := fun path =>
    if path = "domains.txt" then .ok "Example.COM\nexample.com\n"
    else .error "no such file or directory"
  SetupResolverPool := fun l => if l = [] then none else some echoPool
  maxChanSize := 2 ^ 44 - 6

/-- Two characters that are the same, or an ASCII capital and its small letter. -/
def sameLetter (a b : Char) : Prop :=
  a = b ∨ ('A' ≤ a ∧ a ≤ 'Z' ∧ b = Char.ofNat (a.toNat + 32)) ∨
    ('A' ≤ b ∧ b ≤ 'Z' ∧ a = Char.ofNat (b.toNat + 32))

instance (a b : Char) : Decidable (sameLetter a b) :=
  inferInstanceAs (Decidable (a = b ∨ ('A' ≤ a ∧ a ≤ 'Z' ∧ b = Char.ofNat (a.toNat + 32)) ∨
    ('A' ≤ b ∧ b ≤ 'Z' ∧ a = Char.ofNat (b.toNat + 32))))

/-- Two strings that differ only in the case of ASCII letters. -/
def differOnlyInCase (s t : String) : Prop := List.Forall₂ sameLetter s.toList t.toList

instance (s t : String) : Decidable (differOnlyInCase s t) :=
  inferInstanceAs (Decidable (List.Forall₂ sameLetter s.toList t.toList))

/-- The world of `demoWorld` with a Go map that yields its keys in the reverse
of the order they were inserted in. -/
def reversingWorld : World := { demoWorld with mapRange := List.reverse }

/-- The world of `demoWorld` where the resolver directory serves a list of one
entry for the country code "us" and nothing else. -/
def shortListWorld : World :=
  { demoWorld with
    RequestWebPage := fun url =>
      if url = "https://public-dns.info/nameserver/us.txt" then .ok "9.9.9.9\n"
      else .error "connection refused"
    SetupResolverPool := fun _ => some echoPool }

/-- The world of `demoWorld` where no resolver pool can be built. -/
def noPoolWorld : World := { demoWorld with SetupResolverPool := fun _ => none }

/-- The answers of the lookups of `jobs`, batch after batch in the order of the
jobs, the first job being number `k`. -/
def collectFrom (pool : Pool) : Nat → List String → List DNSAnswer
  | _, [] => []
  | k, d :: rest => batch (pool k d) ++ collectFrom pool (k + 1) rest

/-- The shared slice as it is once the worker has finished the append it is in. -/
def Worker.view (answers : List DNSAnswer) : Worker → List DNSAnswer
  | .resolved ans => answers ++ ans
  | .appending old ans => old ++ ans
  | _ => answers

/-! ## Lemmas: `removeDuplicated` -/

theorem lookup_isSome_iff (seen : List (String × Bool)) (k : String) :
    (seen.lookup k).isSome = true ↔ k ∈ seen.map Prod.fst := by
  induction seen with
  | nil => simp
  | cons p rest ih =>
    obtain ⟨a, b⟩ := p
    by_cases h : k = a
    · subst h; simp [List.lookup]
    · have hb : (k == a) = false := by simpa using h
      simp [List.lookup, hb, ih, h]

theorem removeDuplicatedLoop_eq (ips : List String) :
    ∀ (seen : List (String × Bool)) (uniq : List String),
      (∀ x, x ∈ seen.map Prod.fst ↔ x ∈ uniq) →
      removeDuplicatedLoop ips seen uniq =
        uniq ++ (firstOccurrences ips).filter (fun y => decide (y ∉ uniq)) := by
  induction ips with
  | nil => intro seen uniq _; simp [removeDuplicatedLoop, firstOccurrences]
  | cons x xs ih =>
    intro seen uniq hinv
    by_cases hx : x ∈ uniq
    · have hs : (seen.lookup x).isSome = true := (lookup_isSome_iff seen x).2 ((hinv x).2 hx)
      rw [removeDuplicatedLoop, if_pos hs, ih seen uniq hinv]
      simp only [firstOccurrences, List.filter_cons, hx, not_true_eq_false, decide_False,
        List.filter_filter]
      congr 1
      apply List.filter_congr
      intro y _
      by_cases hy : y ∈ uniq
      · simp [hy]
      · have : y ≠ x := fun h => hy (h ▸ hx)
        simp [hy, this]
    · have hs : ¬ (seen.lookup x).isSome = true := fun h =>
        hx ((hinv x).1 ((lookup_isSome_iff seen x).1 h))
      have hinv2 : ∀ z, z ∈ ((x, true) :: seen).map Prod.fst ↔ z ∈ uniq ++ [x] := by
        intro z
        simp only [List.map_cons, List.mem_cons, List.mem_append, List.mem_singleton, hinv z]
        tauto
      rw [removeDuplicatedLoop, if_neg hs, ih _ _ hinv2]
      simp only [firstOccurrences, List.filter_cons, hx, not_false_eq_true, decide_True,
        List.filter_filter, List.append_assoc, List.singleton_append, if_true]
      congr 2
      apply List.filter_congr
      intro y _
      simp only [List.mem_append, List.mem_singleton, not_or, Bool.decide_and, Bool.decide_eq_true,
        decide_not, Bool.and_comm]

theorem removeDuplicated_eq_firstOccurrences (ips : List String) :
    removeDuplicated ips = firstOccurrences ips := by
  rw [removeDuplicated, removeDuplicatedLoop_eq ips [] [] (by simp)]
  simp

theorem mem_firstOccurrences (xs : List String) (x : String) :
    x ∈ firstOccurrences xs ↔ x ∈ xs := by
  induction xs with
  | nil => simp [firstOccurrences]
  | cons a as ih =>
    simp only [firstOccurrences, List.mem_cons, List.mem_filter, ih, decide_eq_true_eq]
    by_cases h : x = a <;> simp [h]

theorem nodup_firstOccurrences (xs : List String) : (firstOccurrences xs).Nodup := by
  induction xs with
  | nil => simp [firstOccurrences]
  | cons a as ih =>
    simp only [firstOccurrences, List.nodup_cons, List.mem_filter, decide_eq_true_eq]
    exact ⟨fun h => h.2 rfl, ih.filter _⟩

theorem sublist_firstOccurrences (xs : List String) : (firstOccurrences xs).Sublist xs := by
  induction xs with
  | nil => simp [firstOccurrences]
  | cons a as ih =>
    exact ((List.filter_sublist _).trans ih).cons₂ a

theorem indexOf_filter_lt_iff (p : String → Bool) (l : List String) (x y : String)
    (hx : p x = true) (hy : p y = true) (hxl : x ∈ l) (hyl : y ∈ l) :
    ((l.filter p).indexOf x < (l.filter p).indexOf y ↔ l.indexOf x < l.indexOf y) := by
  induction l with
  | nil => simp at hxl
  | cons a as ih =>
    by_cases hpa : p a = true
    · rw [List.filter_cons_of_pos hpa]
      by_cases hxa : x = a
      · subst hxa
        by_cases hyx : y = x
        · subst hyx; simp
        · simp [List.indexOf_cons_ne _ (Ne.symm hyx)]
      · by_cases hya : y = a
        · subst hya
          simp [List.indexOf_cons_ne _ (Ne.symm hxa)]
        · have hxas : x ∈ as := by simpa [hxa] using hxl
          have hyas : y ∈ as := by simpa [hya] using hyl
          simp only [List.indexOf_cons_ne _ (Ne.symm hxa), List.indexOf_cons_ne _ (Ne.symm hya),
            Nat.succ_lt_succ_iff]
          exact ih hxas hyas
    · rw [List.filter_cons_of_neg hpa]
      have hxa : x ≠ a := fun h => hpa (h ▸ hx)
      have hya : y ≠ a := fun h => hpa (h ▸ hy)
      have hxas : x ∈ as := by simpa [hxa] using hxl
      have hyas : y ∈ as := by simpa [hya] using hyl
      simp only [List.indexOf_cons_ne _ (Ne.symm hxa), List.indexOf_cons_ne _ (Ne.symm hya),
        Nat.succ_lt_succ_iff]
      exact ih hxas hyas

theorem indexOf_firstOccurrences_lt_iff (xs : List String) (x y : String)
    (hx : x ∈ xs) (hy : y ∈ xs) (hxy : x ≠ y) :
    ((firstOccurrences xs).indexOf x < (firstOccurrences xs).indexOf y ↔
      xs.indexOf x < xs.indexOf y) := by
  induction xs with
  | nil => simp at hx
  | cons a as ih =>
    simp only [firstOccurrences]
    by_cases hxa : x = a
    · subst hxa
      simp [List.indexOf_cons_ne _ hxy]
    · by_cases hya : y = a
      · subst hya
        simp [List.indexOf_cons_ne _ (Ne.symm hxa)]
      · have hxas : x ∈ as := by simpa [hxa] using hx
        have hyas : y ∈ as := by simpa [hya] using hy
        simp only [List.indexOf_cons_ne _ (Ne.symm hxa), List.indexOf_cons_ne _ (Ne.symm hya),
          Nat.succ_lt_succ_iff]
        rw [indexOf_filter_lt_iff _ _ x y (by simpa using hxa) (by simpa using hya)
          ((mem_firstOccurrences as x).2 hxas) ((mem_firstOccurrences as y).2 hyas)]
        exact ih hxas hyas

/-! ## Lemmas: the aggregator -/

theorem rawResultsLoop_eq (onlyIp : Bool) (answers : List DNSAnswer) :
    ∀ acc : List String,
      rawResultsLoop onlyIp answers acc =
        acc ++ (answers.filter (fun a => IsGlobalUnicast (ParseIP a.Data))).map
          (formatLine onlyIp) := by
  induction answers with
  | nil => intro acc; simp [rawResultsLoop]
  | cons a rest ih =>
    intro acc
    by_cases hg : IsGlobalUnicast (ParseIP a.Data) = true
    · cases onlyIp <;> simp [rawResultsLoop, hg, ih, formatLine]
    · simp [rawResultsLoop, hg, ih]

theorem mem_aggregate (onlyIp : Bool) (answers : List DNSAnswer) (line : String) :
    line ∈ aggregate onlyIp answers ↔
      ∃ a ∈ answers, IsGlobalUnicast (ParseIP a.Data) = true ∧ line = formatLine onlyIp a := by
  rw [aggregate, removeDuplicated_eq_firstOccurrences, mem_firstOccurrences, rawResultsLoop_eq]
  simp only [List.nil_append, List.mem_map, List.mem_filter]
  constructor
  · rintro ⟨a, ⟨ha, hg⟩, rfl⟩
    exact ⟨a, ha, hg, rfl⟩
  · rintro ⟨a, ha, hg, rfl⟩
    exact ⟨a, ⟨ha, hg⟩, rfl⟩

theorem nodup_aggregate (onlyIp : Bool) (answers : List DNSAnswer) :
    (aggregate onlyIp answers).Nodup := by
  rw [aggregate, removeDuplicated_eq_firstOccurrences]
  exact nodup_firstOccurrences _

/-! ## The claims about the aggregator -/

/-- C1: for every sequence of answers and either value of the only-ip flag the
lines printed hold no duplicate, and the line of every accepted answer occurs
among them exactly once; for every list `xs`, `removeDuplicated xs` has no
repeated element and the same elements as `xs`. -/
theorem aggregate_nodup_and_complete (onlyIp : Bool) (answers : List DNSAnswer)
    (xs : List String) :
    (aggregate onlyIp answers).Nodup ∧
    (∀ a ∈ answers, IsGlobalUnicast (ParseIP a.Data) = true →
      (aggregate onlyIp answers).count
        (if onlyIp then (ParseIP a.Data).String
          else sprintfPair a.Name (ParseIP a.Data).String) = 1) ∧
    (∀ line, line ∈ aggregate onlyIp answers ↔ line ∈ rawResultsLoop onlyIp answers []) ∧
    (removeDuplicated xs).Nodup ∧
    (∀ x, x ∈ removeDuplicated xs ↔ x ∈ xs) ∧
    (∀ x ∈ xs, (removeDuplicated xs).count x = 1) := by
  refine ⟨nodup_aggregate onlyIp answers, ?_, ?_, ?_, ?_, ?_⟩
  · intro a ha hg
    apply List.count_eq_one_of_mem (nodup_aggregate onlyIp answers)
    rw [mem_aggregate]
    exact ⟨a, ha, hg, by cases onlyIp <;> simp [formatLine]⟩
  · intro line
    rw [aggregate, removeDuplicated_eq_firstOccurrences, mem_firstOccurrences]
  · rw [removeDuplicated_eq_firstOccurrences]
    exact nodup_firstOccurrences xs
  · intro x
    rw [removeDuplicated_eq_firstOccurrences, mem_firstOccurrences]
  · intro x hx
    rw [removeDuplicated_eq_firstOccurrences]
    exact List.count_eq_one_of_mem (nodup_firstOccurrences xs) ((mem_firstOccurrences xs x).2 hx)

/-- The theorem above at a concrete input:
two answers with the same name and address and one
loopback answer give one line. -/
theorem aggregate_nodup_and_complete_witness :
    aggregate false [⟨"a.example", 1, 0, "93.184.216.34"⟩, ⟨"a.example", 1, 0, "127.0.0.1"⟩,
        ⟨"a.example", 1, 0, "93.184.216.34"⟩] = ["a.example,93.184.216.34"] ∧
    (aggregate false [⟨"a.example", 1, 0, "93.184.216.34"⟩, ⟨"a.example", 1, 0, "127.0.0.1"⟩,
        ⟨"a.example", 1, 0, "93.184.216.34"⟩]).count "a.example,93.184.216.34" = 1 := by
  refine ⟨by decide, ?_⟩
  exact (aggregate_nodup_and_complete false
    [⟨"a.example", 1, 0, "93.184.216.34"⟩, ⟨"a.example", 1, 0, "127.0.0.1"⟩,
      ⟨"a.example", 1, 0, "93.184.216.34"⟩] []).2.1 ⟨"a.example", 1, 0, "93.184.216.34"⟩
    (by simp) (by decide)

/-- C2: `removeDuplicated xs` is a subsequence of `xs`, and of two distinct
elements of the result the one whose first occurrence in `xs` comes first comes
first in the result: it is the list of first occurrences.  Hence the lines
printed are the first occurrences of the lines of the accepted answers, a
function of the collected answers in their order. -/
theorem removeDuplicated_first_occurrence_order (xs : List String) :
    (removeDuplicated xs).Sublist xs ∧
    (∀ x y, x ∈ removeDuplicated xs → y ∈ removeDuplicated xs → x ≠ y →
      ((removeDuplicated xs).indexOf x < (removeDuplicated xs).indexOf y ↔
        xs.indexOf x < xs.indexOf y)) ∧
    removeDuplicated xs = firstOccurrences xs ∧
    (∀ (onlyIp : Bool) (answers : List DNSAnswer),
      aggregate onlyIp answers =
        firstOccurrences ((answers.filter (fun a => IsGlobalUnicast (ParseIP a.Data))).map
          (fun a => if onlyIp then (ParseIP a.Data).String
            else sprintfPair a.Name (ParseIP a.Data).String))) := by
  refine ⟨?_, ?_, removeDuplicated_eq_firstOccurrences xs, ?_⟩
  · rw [removeDuplicated_eq_firstOccurrences]
    exact sublist_firstOccurrences xs
  · rw [removeDuplicated_eq_firstOccurrences]
    intro x y hx hy hxy
    exact indexOf_firstOccurrences_lt_iff xs x y ((mem_firstOccurrences xs x).1 hx)
      ((mem_firstOccurrences xs y).1 hy) hxy
  · intro onlyIp answers
    rw [aggregate, removeDuplicated_eq_firstOccurrences, rawResultsLoop_eq, List.nil_append]
    rfl

/-- The theorem above at a concrete input:
in `b a b c a` the first occurrence of `b` is before
that of `a`, and so is `b` in the result `b a c`. -/
theorem removeDuplicated_first_occurrence_order_witness :
    removeDuplicated ["b", "a", "b", "c", "a"] = ["b", "a", "c"] ∧
    ((removeDuplicated ["b", "a", "b", "c", "a"]).indexOf "a" <
        (removeDuplicated ["b", "a", "b", "c", "a"]).indexOf "c" ↔
      (["b", "a", "b", "c", "a"] : List String).indexOf "a" <
        (["b", "a", "b", "c", "a"] : List String).indexOf "c") := by
  refine ⟨by decide, ?_⟩
  exact (removeDuplicated_first_occurrence_order ["b", "a", "b", "c", "a"]).2.1 "a" "c"
    (by decide) (by decide) (by decide)

/-- C3, as the code has it: a line is printed exactly when it is the line of an
answer whose data parses to an address that `IsGlobalUnicast` accepts, which
is an address of 4 or 16 bytes that is not the IPv4 broadcast address,
unspecified, loopback, multicast or link-local unicast.  An answer that is not
accepted changes nothing in the output; "127.0.0.1" and the strings that do not
parse are not accepted, "93.184.216.34" and the private "10.0.0.5" are. -/
theorem aggregate_accepts_iff_IsGlobalUnicast (onlyIp : Bool) (answers : List DNSAnswer) :
    (∀ line, line ∈ aggregate onlyIp answers ↔
      ∃ a ∈ answers, IsGlobalUnicast (ParseIP a.Data) = true ∧
        line = (if onlyIp then (ParseIP a.Data).String
          else sprintfPair a.Name (ParseIP a.Data).String)) ∧
    (∀ pre post a, IsGlobalUnicast (ParseIP a.Data) = false →
      aggregate onlyIp (pre ++ a :: post) = aggregate onlyIp (pre ++ post)) ∧
    (∀ ip : IP, IsGlobalUnicast ip = true ↔
      (ip.length = 4 ∨ ip.length = 16) ∧ IP.Equal ip IPv4bcast = false ∧
        IsUnspecified ip = false ∧ IsLoopback ip = false ∧ IsMulticast ip = false ∧
        IsLinkLocalUnicast ip = false) ∧
    (∀ s, ParseIP s = [] → IsGlobalUnicast (ParseIP s) = false) ∧
    IsGlobalUnicast (ParseIP "127.0.0.1") = false ∧
    IsGlobalUnicast (ParseIP "93.184.216.34") = true ∧
    IsGlobalUnicast (ParseIP "10.0.0.5") = true := by
  refine ⟨?_, ?_, ?_, ?_, by decide, by decide, by decide⟩
  · intro line
    rw [mem_aggregate]
    cases onlyIp <;> simp [formatLine]
  · intro pre post a ha
    simp [aggregate, rawResultsLoop_eq, List.filter_append, List.filter_cons, ha]
  · intro ip
    simp [IsGlobalUnicast, IPv4len, IPv6len, and_assoc]
  · intro s hs
    rw [hs]
    decide

/-- The theorem above at a concrete input:
the loopback answer is dropped, the public and the
private address are printed. -/
theorem aggregate_accepts_iff_IsGlobalUnicast_witness :
    aggregate true [⟨"a.example", 1, 0, "127.0.0.1"⟩, ⟨"a.example", 1, 0, "93.184.216.34"⟩,
        ⟨"b.example", 1, 0, "10.0.0.5"⟩] =
      aggregate true [⟨"a.example", 1, 0, "93.184.216.34"⟩, ⟨"b.example", 1, 0, "10.0.0.5"⟩] ∧
    aggregate true [⟨"a.example", 1, 0, "93.184.216.34"⟩, ⟨"b.example", 1, 0, "10.0.0.5"⟩] =
      ["93.184.216.34", "10.0.0.5"] :=
  ⟨(aggregate_accepts_iff_IsGlobalUnicast true []).2.1 []
      [⟨"a.example", 1, 0, "93.184.216.34"⟩, ⟨"b.example", 1, 0, "10.0.0.5"⟩]
      ⟨"a.example", 1, 0, "127.0.0.1"⟩ (by decide), by decide⟩

/-- Without the correction the statement fails:
an answer whose data is "10.0.0.5" is
accepted and its line is printed, in both output modes. -/
theorem private_address_is_printed :
    aggregate false [⟨"intranet.example", 1, 0, "10.0.0.5"⟩] = ["intranet.example,10.0.0.5"] ∧
    aggregate true [⟨"intranet.example", 1, 0, "10.0.0.5"⟩] = ["10.0.0.5"] ∧
    ¬ (∀ (onlyIp : Bool) (answers : List DNSAnswer), ∀ a ∈ answers, a.Data = "10.0.0.5" →
        (if onlyIp then (ParseIP a.Data).String
          else sprintfPair a.Name (ParseIP a.Data).String) ∉ aggregate onlyIp answers) := by
  refine ⟨by decide, by decide, ?_⟩
  intro h
  exact h true [⟨"intranet.example", 1, 0, "10.0.0.5"⟩] ⟨"intranet.example", 1, 0, "10.0.0.5"⟩
    (by simp) rfl (by decide)

/-! ## Lemmas: the worker pool -/

theorem foldl_preserves {α β : Type} (P : α → Prop) (f : α → β → α)
    (h : ∀ a b, P a → P (f a b)) : ∀ (l : List β) (a : α), P a → P (l.foldl f a) := by
  intro l
  induction l with
  | nil => intro a ha; exact ha
  | cons b bs ih => intro a ha; exact ih (f a b) (h a b ha)

theorem iterate_preserves {α : Type} (P : α → Prop) (f : α → α)
    (h : ∀ a, P a → P (f a)) : ∀ (n : Nat) (a : α), P a → P (f^[n] a) := by
  intro n
  induction n with
  | zero => intro a ha; exact ha
  | succ n ih => intro a ha; rw [Function.iterate_succ_apply]; exact ih (f a) (h a ha)

theorem drop_eq_cons {jobs : List String} {n : Nat} {d : String} {rest : List String}
    (h : d :: rest = jobs.drop n) : jobs[n]? = some d ∧ rest = jobs.drop (n + 1) := by
  constructor
  · rw [← List.head?_drop, ← h]; rfl
  · rw [← List.tail_drop, ← h]; rfl

theorem workerStep_jobsInOrder (pool : Pool) (jobs : List String) (i : Nat) (s : PoolState)
    (h : JobsInOrder jobs s) : JobsInOrder jobs (workerStep pool i s) := by
  obtain ⟨hq, hr, hf⟩ := h
  unfold workerStep
  split_ifs with hi
  · split
    · next hwi =>
      split
      · next hjobs => exact ⟨hq, hr, fun _ _ => hjobs⟩
      · next domain rest hjobs =>
        have hd := drop_eq_cons (hjobs ▸ hq)
        refine ⟨hd.2, ?_, ?_⟩
        · show s.resolves ++ [domain] = jobs.take (s.received + 1)
          rw [List.take_succ, hd.1, hr]
          rfl
        · intro j hjf
          by_cases hj : j = i
          · subst hj; simp at hjf
          · have := hf j (by simpa [Function.update_noteq hj] using hjf)
            rw [hjobs] at this
            exact absurd this (by simp)
    · next ans hwi =>
      refine ⟨hq, hr, ?_⟩
      intro j hjf
      by_cases hj : j = i
      · subst hj; simp at hjf
      · exact hf j (by simpa [Function.update_noteq hj] using hjf)
    · next old ans hwi =>
      refine ⟨hq, hr, ?_⟩
      intro j hjf
      by_cases hj : j = i
      · subst hj; simp at hjf
      · exact hf j (by simpa [Function.update_noteq hj] using hjf)
    · exact ⟨hq, hr, hf⟩
  · exact ⟨hq, hr, hf⟩

theorem workerStep_threads (pool : Pool) (i : Nat) (s : PoolState) :
    (workerStep pool i s).threads = s.threads := by
  unfold workerStep
  split_ifs
  · split
    · split <;> rfl
    · rfl
    · rfl
    · rfl
  · rfl

theorem workerStep_finished (pool : Pool) (i j : Nat) (s : PoolState)
    (h : s.workers j = .finished) : (workerStep pool i s).workers j = .finished := by
  by_cases hj : j = i
  · subst hj
    unfold workerStep
    split_ifs
    · rw [h]; exact h
    · exact h
  · unfold workerStep
    split_ifs
    · split
      · split <;> simpa [Function.update_noteq hj] using h
      · simpa [Function.update_noteq hj] using h
      · simpa [Function.update_noteq hj] using h
      · exact h
    · exact h

theorem workerStep_stepsLeft (pool : Pool) (i : Nat) (s : PoolState) (hi : i < s.threads)
    (h : s.workers i ≠ .finished) :
    ((workerStep pool i s).workers i).stepsLeft (workerStep pool i s).jobChan.length + 1 =
      (s.workers i).stepsLeft s.jobChan.length := by
  unfold workerStep
  rw [if_pos hi]
  split
  · next hwi =>
    split
    · next hjobs => simp [hwi, hjobs, Worker.stepsLeft]
    · next domain rest hjobs => simp [hwi, hjobs, Worker.stepsLeft]; omega
  · next ans hwi => simp [hwi, Worker.stepsLeft]
  · next old ans hwi => simp [hwi, Worker.stepsLeft]
  · next hwi => exact absurd hwi h

theorem stepsLeft_le (q : Nat) (wk : Worker) : wk.stepsLeft q ≤ 3 * q + 3 := by
  cases wk <;> simp [Worker.stepsLeft]

theorem workerStep_fault (pool : Pool) (i : Nat) (s : PoolState) :
    (workerStep pool i s).fault = s.fault := by
  unfold workerStep
  split_ifs
  · split
    · split <;> rfl
    · rfl
    · rfl
    · rfl
  · rfl

theorem tornReadPossible_one (i : Nat) (s : PoolState) (h : s.threads = 1) :
    tornReadPossible i s = false := by
  unfold tornReadPossible
  rw [h]
  by_cases hi : i < 1
  · have hi0 : i = 0 := by omega
    subst hi0
    simp [List.range_succ]
  · simp [hi]

theorem perform_one (pool : Pool) (P : PoolState → Prop)
    (hstep : ∀ i s, P s → P (workerStep pool i s)) (s : PoolState) (a : Action)
    (h : P s ∧ s.fault = false ∧ s.threads = 1) :
    P (perform pool s a) ∧ (perform pool s a).fault = false ∧ (perform pool s a).threads = 1 := by
  obtain ⟨hP, hf, ht⟩ := h
  cases a with
  | step i =>
    simp only [perform, hf, Bool.false_eq_true, if_false]
    exact ⟨hstep i s hP, (workerStep_fault pool i s).trans hf,
      (workerStep_threads pool i s).trans ht⟩
  | tornRead i =>
    simp only [perform, tornReadPossible_one i s ht, Bool.false_eq_true, if_false]
    exact ⟨hP, hf, ht⟩

theorem iterate_step_finished (pool : Pool) (i : Nat) :
    ∀ (n : Nat) (s : PoolState), s.fault = false → i < s.threads →
      (s.workers i).stepsLeft s.jobChan.length ≤ n →
      ((fun t => perform pool t (.step i))^[n] s).workers i = .finished := by
  intro n
  induction n with
  | zero =>
    intro s _ _ h
    cases hw : s.workers i <;> simp [hw, Worker.stepsLeft] at h ⊢
  | succ n ih =>
    intro s hf hi h
    rw [Function.iterate_succ_apply]
    have hp : perform pool s (.step i) = workerStep pool i s := by
      simp [perform, hf]
    rw [hp]
    by_cases hfin : s.workers i = .finished
    · apply ih
      · rw [workerStep_fault]; exact hf
      · rw [workerStep_threads]; exact hi
      · rw [workerStep_finished pool i i s hfin]; simp [Worker.stepsLeft]
    · apply ih
      · rw [workerStep_fault]; exact hf
      · rw [workerStep_threads]; exact hi
      · have := workerStep_stepsLeft pool i s hi hfin
        omega

/-- With one worker: what every step of the worker keeps holds at `wg.Wait()`,
no read is torn, and the worker has left its loop. -/
theorem runWorkers_one (pool : Pool) (P : PoolState → Prop)
    (hstep : ∀ i s, P s → P (workerStep pool i s)) (jobs : List String)
    (schedule : List Action) (h0 : P (startWorkers 1 jobs)) :
    P (runWorkers pool 1 jobs schedule) ∧ (runWorkers pool 1 jobs schedule).fault = false ∧
      (runWorkers pool 1 jobs schedule).workers 0 = .finished := by
  have h1 := foldl_preserves (fun s : PoolState => P s ∧ s.fault = false ∧ s.threads = 1)
    (perform pool) (fun s a hs => perform_one pool P hstep s a hs) schedule
    (startWorkers 1 jobs) ⟨h0, rfl, rfl⟩
  have hrun : runWorkers pool 1 jobs schedule =
      runToEnd pool (schedule.foldl (perform pool) (startWorkers 1 jobs)) 0 := by
    simp [runWorkers, List.range_succ]
  rw [hrun]
  unfold runToEnd
  have h2 := iterate_preserves (fun s : PoolState => P s ∧ s.fault = false ∧ s.threads = 1)
    (fun t => perform pool t (.step 0)) (fun s hs => perform_one pool P hstep s (.step 0) hs)
    (3 * (schedule.foldl (perform pool) (startWorkers 1 jobs)).jobChan.length + 3) _ h1
  refine ⟨h2.1, h2.2.1, ?_⟩
  exact iterate_step_finished pool 0 _ _ h1.2.1 (by rw [h1.2.2]; decide) (stepsLeft_le _ _)

theorem runWorkers_one_jobChan_nil (pool : Pool) (jobs : List String) (schedule : List Action) :
    (runWorkers pool 1 jobs schedule).jobChan = [] := by
  have h := runWorkers_one pool (JobsInOrder jobs) (workerStep_jobsInOrder pool jobs) jobs
    schedule (by simp [JobsInOrder, startWorkers])
  exact h.1.2.2 0 h.2.2

theorem runWorkers_one_resolves (pool : Pool) (jobs : List String) (schedule : List Action) :
    (runWorkers pool 1 jobs schedule).resolves = jobs := by
  have h := (runWorkers_one pool (JobsInOrder jobs) (workerStep_jobsInOrder pool jobs) jobs
    schedule (by simp [JobsInOrder, startWorkers])).1
  have hnil := runWorkers_one_jobChan_nil pool jobs schedule
  rw [h.1, List.drop_eq_nil_iff] at hnil
  rw [h.2.1, List.take_of_length_le hnil]

theorem workerStep_view (pool : Pool) (total : List DNSAnswer) (i : Nat) (s : PoolState)
    (h : s.threads = 1 ∧
      (s.workers 0).view s.answers ++ collectFrom pool s.received s.jobChan = total) :
    (workerStep pool i s).threads = 1 ∧
      ((workerStep pool i s).workers 0).view (workerStep pool i s).answers ++
        collectFrom pool (workerStep pool i s).received (workerStep pool i s).jobChan = total := by
  obtain ⟨ht, hv⟩ := h
  refine ⟨(workerStep_threads pool i s).trans ht, ?_⟩
  unfold workerStep
  split_ifs with hi
  · have hi0 : i = 0 := by omega
    subst hi0
    split
    · next hwi =>
      split
      · next hjobs =>
        rw [hwi] at hv
        simpa [Worker.view] using hv
      · next domain rest hjobs =>
        rw [hwi, hjobs] at hv
        simpa [Worker.view, collectFrom] using hv
    · next ans hwi =>
      rw [hwi] at hv
      simpa [Worker.view] using hv
    · next old ans hwi =>
      rw [hwi] at hv
      simpa [Worker.view] using hv
    · exact hv
  · exact hv

theorem runWorkers_one_answers (pool : Pool) (jobs : List String) (schedule : List Action) :
    (runWorkers pool 1 jobs schedule).answers = collectFrom pool 0 jobs := by
  have hinv := runWorkers_one pool
    (fun s => s.threads = 1 ∧
      (s.workers 0).view s.answers ++ collectFrom pool s.received s.jobChan =
        collectFrom pool 0 jobs)
    (fun i s hs => workerStep_view pool _ i s hs) jobs schedule
    ⟨rfl, by simp [startWorkers, Worker.view]⟩
  have hnil := runWorkers_one_jobChan_nil pool jobs schedule
  have := hinv.1.2
  rw [hinv.2.2, hnil] at this
  simpa [Worker.view, collectFrom] using this

/-! ## Lemmas: `strings.ToLower` -/

theorem toLowerRune_ascii (tbl : Char → Char) (c : Char) (h : c.toNat < 128) :
    toLowerRune tbl c =
      if 'A' ≤ c ∧ c ≤ 'Z' then Char.ofNat (c.toNat + ('a'.toNat - 'A'.toNat)) else c := by
  unfold toLowerRune
  rw [if_pos (by omega)]

theorem ToLower_eq_map (tbl : Char → Char) (s : String) :
    ToLower tbl s = String.mk (s.toList.map (toLowerRune tbl)) := by
  unfold ToLower
  simp only
  split_ifs with hascii hupper
  · have hall : ∀ c ∈ s.toList, toLowerRune tbl c = c := by
      intro c hc
      have h1 : c.toNat < 128 := by
        simpa using (List.all_eq_true.1 hascii) c hc
      have h2 : ¬ ('A' ≤ c ∧ c ≤ 'Z') := by
        intro h
        have : s.toList.any (fun c => decide ('A' ≤ c ∧ c ≤ 'Z')) = true :=
          List.any_eq_true.2 ⟨c, hc, by simpa using h⟩
        rw [this] at hupper
        exact absurd hupper (by decide)
      rw [toLowerRune_ascii tbl c h1, if_neg h2]
    have : s.toList.map (toLowerRune tbl) = s.toList := by
      conv_rhs => rw [← List.map_id s.toList]
      exact List.map_congr_left (fun c hc => by simpa using hall c hc)
    rw [this]
    cases s
    rfl
  · congr 1
    apply List.map_congr_left
    intro c hc
    have h1 : c.toNat < 128 := by
      simpa using (List.all_eq_true.1 hascii) c hc
    rw [toLowerRune_ascii tbl c h1]
  · rfl

theorem upper_toNat (a : Char) (h1 : 'A' ≤ a) (h2 : a ≤ 'Z') : 65 ≤ a.toNat ∧ a.toNat ≤ 90 := by
  have e1 : ('A' : Char).val.toNat ≤ a.val.toNat := h1
  have e2 : a.val.toNat ≤ ('Z' : Char).val.toNat := h2
  exact ⟨e1, e2⟩

theorem toLowerRune_upper (tbl : Char → Char) (a : Char) (h1 : 'A' ≤ a) (h2 : a ≤ 'Z') :
    toLowerRune tbl a = Char.ofNat (a.toNat + 32) ∧
      toLowerRune tbl (Char.ofNat (a.toNat + 32)) = Char.ofNat (a.toNat + 32) := by
  obtain ⟨l, u⟩ := upper_toNat a h1 h2
  have ha : a = Char.ofNat a.toNat := (Char.ofNat_toNat a).symm
  generalize a.toNat = n at ha l u
  subst ha
  interval_cases n <;> exact ⟨by rfl, by rfl⟩

theorem toLowerRune_sameLetter (tbl : Char → Char) (a b : Char) (h : sameLetter a b) :
    toLowerRune tbl a = toLowerRune tbl b := by
  rcases h with h | ⟨h1, h2, h3⟩ | ⟨h1, h2, h3⟩
  · rw [h]
  · rw [h3, (toLowerRune_upper tbl a h1 h2).1, (toLowerRune_upper tbl a h1 h2).2]
  · rw [h3, (toLowerRune_upper tbl b h1 h2).1, (toLowerRune_upper tbl b h1 h2).2]

theorem ToLower_differOnlyInCase (tbl : Char → Char) (s t : String)
    (h : differOnlyInCase s t) : ToLower tbl s = ToLower tbl t := by
  rw [ToLower_eq_map, ToLower_eq_map]
  congr 1
  have key : ∀ l m : List Char, List.Forall₂ sameLetter l m →
      l.map (toLowerRune tbl) = m.map (toLowerRune tbl) := by
    intro l m hlm
    induction hlm with
    | nil => rfl
    | cons hab _ ih => rw [List.map_cons, List.map_cons, toLowerRune_sameLetter tbl _ _ hab, ih]
  exact key _ _ h

/-! ## Lemmas: the driver -/

theorem main_one_worker (w : World) (f : Flags) (schedule : List Action) (tr : List Event)
    (rl : List String) (text : String) (pool : Pool) (hin : f.inputFile ≠ "")
    (hrl : resolversList w f = (tr, .ok rl)) (hopen : w.Open f.inputFile = .ok text)
    (hpool : w.SetupResolverPool rl = some pool) (hthreads : f.threads = 1)
    (hcap : 2 ≤ w.maxChanSize) :
    main w f schedule =
      ⟨tr ++ [.Open f.inputFile, .SetupResolverPool rl] ++ (jobsOf w text).map .Resolve,
        aggregate f.onlyIp (collectFrom pool 0 (jobsOf w text)), .returned⟩ := by
  have hw : wrapInt (f.threads * 2) = 2 := by rw [hthreads]; decide
  have hfault : (runWorkers pool 1 (jobsOf w text) schedule).fault = false :=
    (runWorkers_one pool (fun _ => True) (fun _ _ _ => trivial) (jobsOf w text) schedule
      trivial).2.1
  unfold main
  rw [if_neg hin, hrl]
  simp only [hopen, hpool]
  rw [hw, if_neg (by omega), if_neg (by omega), hthreads]
  simp only [Int.toNat_one, hfault, Bool.false_eq_true, if_false,
    runWorkers_one_resolves, runWorkers_one_answers]

theorem batch_some_of_ne_nil (l : List DNSAnswer) (h : l ≠ []) : batch (some l) = l := by
  cases l with
  | nil => exact absurd rfl h
  | cons a as => simp [batch]

theorem eq_singleton_of_nodup {l : List String} {c : String} (hn : l.Nodup) (hne : l ≠ [])
    (hall : ∀ x ∈ l, x = c) : l = [c] := by
  cases l with
  | nil => exact absurd rfl hne
  | cons a as =>
    have ha : a = c := hall a (by simp)
    subst ha
    cases as with
    | nil => rfl
    | cons b bs =>
      have hb : b = a := hall b (by simp)
      subst hb
      simp at hn

/-! ## The claims about the pipeline -/

/-- C8, evaluated on the code: for the input of the two lines `Example.COM` and
`example.com`, both jobs are `example.com` and the pool answers each with the
same record of a globally routable address; with two workers, when worker 1
reads `answers` while worker 0 writes it, the run ends in the run-time before
anything is printed, where one worker prints the one line. -/
theorem torn_read_of_answers_prints_nothing :
    demoWorld.Open "domains.txt" = .ok "Example.COM\nexample.com\n" ∧
    jobsOf demoWorld "Example.COM\nexample.com\n" = ["example.com", "example.com"] ∧
    echoPool 0 "example.com" = some [⟨"example.com", 1, 0, "93.184.216.34"⟩] ∧
    echoPool 1 "example.com" = some [⟨"example.com", 1, 0, "93.184.216.34"⟩] ∧
    IsGlobalUnicast (ParseIP "93.184.216.34") = true ∧
    (main demoWorld ⟨"domains.txt", 2, "", false, false⟩
      [.step 0, .step 1, .step 0, .tornRead 1]).exit = .crash ∧
    (main demoWorld ⟨"domains.txt", 2, "", false, false⟩
      [.step 0, .step 1, .step 0, .tornRead 1]).stdout = [] ∧
    (main demoWorld ⟨"domains.txt", 1, "", false, false⟩ []).stdout =
      ["example.com,93.184.216.34"] := by
  refine ⟨rfl, by decide, rfl, rfl, by decide, by decide, by decide, by decide⟩

/-- C10, evaluated on the code: with two workers and the jobs `a.example` and
`b.example`, both lookups succeed with one answer each; when both workers read
`answers` before either writes it back, the answer for `a.example` is missing
from the collection at `wg.Wait()`, and the output differs from that of one
worker. -/
theorem unsynchronized_append_loses_an_answer :
    echoPool 0 "a.example" = some [⟨"a.example", 1, 0, "93.184.216.34"⟩] ∧
    (runWorkers echoPool 2 ["a.example", "b.example"]
      [.step 0, .step 1, .step 0, .step 1, .step 0, .step 1]).resolves =
      ["a.example", "b.example"] ∧
    (runWorkers echoPool 2 ["a.example", "b.example"]
      [.step 0, .step 1, .step 0, .step 1, .step 0, .step 1]).answers =
      [⟨"b.example", 1, 0, "93.184.216.34"⟩] ∧
    (runWorkers echoPool 1 ["a.example", "b.example"] []).answers =
      [⟨"a.example", 1, 0, "93.184.216.34"⟩, ⟨"b.example", 1, 0, "93.184.216.34"⟩] ∧
    aggregate false (runWorkers echoPool 2 ["a.example", "b.example"]
      [.step 0, .step 1, .step 0, .step 1, .step 0, .step 1]).answers =
      ["b.example,93.184.216.34"] ∧
    aggregate false (runWorkers echoPool 1 ["a.example", "b.example"] []).answers =
      ["a.example,93.184.216.34", "b.example,93.184.216.34"] ∧
    ¬ (∀ (pool : Pool) (threads : Nat) (jobs : List String) (schedule : List Action),
        1 ≤ threads → ∀ k d a, jobs[k]? = some d → a ∈ batch (pool k d) →
          a ∈ (runWorkers pool threads jobs schedule).answers) := by
  refine ⟨rfl, by decide, by decide, by decide, by decide, by decide, ?_⟩
  intro h
  have := h echoPool 2 ["a.example", "b.example"]
    [.step 0, .step 1, .step 0, .step 1, .step 0, .step 1] (by decide) 0 "a.example"
    ⟨"a.example", 1, 0, "93.184.216.34"⟩ rfl (by decide)
  revert this
  decide

/-! ## Lemmas: word lists and resolver lists -/

theorem getWordListLoop_eq (tokens : List String) :
    ∀ words : List String,
      getWordListLoop tokens words =
        words ++ (tokens.map TrimSpace).filter (fun s => decide (s ≠ "")) := by
  induction tokens with
  | nil => intro words; simp [getWordListLoop]
  | cons t rest ih =>
    intro words
    by_cases h : TrimSpace t = ""
    · simp [getWordListLoop, h, ih]
    · simp [getWordListLoop, h, ih]

theorem foldl_stringsetInsert (w : World) (l : List String) :
    ∀ acc : List String,
      l.foldl (stringsetInsert w) acc =
        acc ++ (firstOccurrences (l.map (ToLower w.unicodeToLower))).filter
          (fun y => decide (y ∉ acc)) := by
  induction l with
  | nil => intro acc; simp [firstOccurrences]
  | cons a as ih =>
    intro acc
    rw [List.foldl_cons, ih]
    unfold stringsetInsert
    by_cases hx : ToLower w.unicodeToLower a ∈ acc
    · rw [if_pos hx]
      simp only [List.map_cons, firstOccurrences, List.filter_cons, hx, not_true_eq_false,
        decide_False, List.filter_filter]
      congr 1
      apply List.filter_congr
      intro y _
      by_cases hy : y ∈ acc
      · simp [hy]
      · have : y ≠ ToLower w.unicodeToLower a := fun h => hy (h ▸ hx)
        simp [hy, this]
    · rw [if_neg hx]
      simp only [List.map_cons, firstOccurrences, List.filter_cons, hx, not_false_eq_true,
        decide_True, List.filter_filter, List.append_assoc, List.singleton_append, if_true]
      congr 2
      apply List.filter_congr
      intro y _
      simp only [List.mem_append, List.mem_singleton, not_or, Bool.decide_and,
        Bool.decide_eq_true, decide_not, Bool.and_comm]

theorem stringsetNew_eq (w : World) (l : List String) :
    stringsetNew w l = firstOccurrences (l.map (ToLower w.unicodeToLower)) := by
  rw [stringsetNew, foldl_stringsetInsert]
  simp

theorem getWordList_eq (w : World) (text : String) :
    (getWordList w text).1 =
      w.mapRange (firstOccurrences ((((scanLines text).map TrimSpace).filter
        (fun s => decide (s ≠ ""))).map (ToLower w.unicodeToLower))) := by
  simp [getWordList, Deduplicate, stringsetNew_eq, getWordListLoop_eq]

theorem getWordlistByURL_ok_iff (w : World) (url : String) :
    (getWordlistByURL w url).2 = none ↔ ∃ page, w.RequestWebPage url = .ok page := by
  unfold getWordlistByURL
  cases h : w.RequestWebPage url with
  | error e => simp
  | ok page => simp [getWordList]

theorem getWordlistByURL_nodup (w : World) (hw : w.lawful) (url : String) :
    (getWordlistByURL w url).1.Nodup := by
  unfold getWordlistByURL
  cases h : w.RequestWebPage url with
  | error e => simp
  | ok page =>
    simp only
    rw [getWordList_eq]
    exact (hw _).nodup_iff.2 (nodup_firstOccurrences _)

/-! ## The claims about word lists, resolver lists and exits -/

/-- C9, as the code has it: `getWordList` never returns an error; its result
holds the lines of the text with surrounding white space trimmed, blank lines
dropped and every entry lower-cased, each once; the order is the one in which
the Go map of `stringset.Deduplicate` yields its keys, so the result is a
permutation of the first occurrences. -/
theorem getWordList_lowercased_each_once (w : World) (text : String) :
    (getWordList w text).2 = none ∧
    (getWordList w text).1 =
      w.mapRange (firstOccurrences ((((scanLines text).map TrimSpace).filter
        (fun s => decide (s ≠ ""))).map (ToLower w.unicodeToLower))) ∧
    (w.lawful →
      (getWordList w text).1.Perm
        (firstOccurrences ((((scanLines text).map TrimSpace).filter
          (fun s => decide (s ≠ ""))).map (ToLower w.unicodeToLower))) ∧
      (getWordList w text).1.Nodup ∧
      ∀ e, e ∈ (getWordList w text).1 ↔
        ∃ line ∈ scanLines text, TrimSpace line ≠ "" ∧
          e = ToLower w.unicodeToLower (TrimSpace line)) := by
  refine ⟨rfl, getWordList_eq w text, ?_⟩
  intro hw
  rw [getWordList_eq]
  refine ⟨hw _, (hw _).nodup_iff.2 (nodup_firstOccurrences _), ?_⟩
  intro e
  rw [(hw _).mem_iff, mem_firstOccurrences]
  simp only [List.mem_map, List.mem_filter, decide_eq_true_eq]
  constructor
  · rintro ⟨t, ⟨⟨line, hline, rfl⟩, hne⟩, rfl⟩
    exact ⟨line, hline, hne, rfl⟩
  · rintro ⟨line, hline, hne, rfl⟩
    exact ⟨TrimSpace line, ⟨⟨line, hline, rfl⟩, hne⟩, rfl⟩

/-- The theorem above at a concrete input, in a world whose Go maps keep insertion order. -/
theorem getWordList_lowercased_each_once_witness :
    getWordList demoWorld " 8.8.8.8:53 \n\nNS1.Example.COM\r\n8.8.8.8:53\n" =
      (["8.8.8.8:53", "ns1.example.com"], none) ∧
    (getWordList demoWorld " 8.8.8.8:53 \n\nNS1.Example.COM\r\n8.8.8.8:53\n").1.Nodup :=
  ⟨by decide,
    ((getWordList_lowercased_each_once demoWorld
      " 8.8.8.8:53 \n\nNS1.Example.COM\r\n8.8.8.8:53\n").2.2 (fun _ => List.Perm.refl _)).2.1⟩

/-- Without the correction the statement fails:
an entry with capital letters is returned
lower-cased, not unchanged, and where the Go map yields its keys in another
order than they were inserted in, the entries are not in the order of their
first occurrence. -/
theorem getWordList_changes_case_and_order :
    (getWordList demoWorld "NS1.Example.COM\n").1 = ["ns1.example.com"] ∧
    (getWordList reversingWorld "8.8.8.8:53\n1.1.1.1:53\n").1 = ["1.1.1.1:53", "8.8.8.8:53"] ∧
    demoWorld.lawful ∧ reversingWorld.lawful ∧
    ¬ (∀ (w : World) (text : String), w.lawful →
        (getWordList w text).1 =
          firstOccurrences (((scanLines text).map TrimSpace).filter
            (fun s => decide (s ≠ "")))) := by
  refine ⟨by decide, by decide, fun _ => List.Perm.refl _, fun l => List.reverse_perm l, ?_⟩
  intro h
  have := h demoWorld "NS1.Example.COM\n" (fun _ => List.Perm.refl _)
  revert this
  decide

theorem setupResolverPool_in_trace (w : World) (f : Flags) (schedule : List Action)
    (tr : List Event) (rl : List String) (text : String) (hin : f.inputFile ≠ "")
    (hrl : resolversList w f = (tr, .ok rl)) (hopen : w.Open f.inputFile = .ok text) :
    Event.SetupResolverPool rl ∈ (main w f schedule).trace := by
  unfold main
  rw [if_neg hin, hrl]
  simp only [hopen]
  cases w.SetupResolverPool rl with
  | none => simp
  | some pool =>
    simp only
    split_ifs <;> simp

theorem main_pool_nil (w : World) (f : Flags) (schedule : List Action) (tr : List Event)
    (rl : List String) (text : String) (hin : f.inputFile ≠ "")
    (hrl : resolversList w f = (tr, .ok rl)) (hopen : w.Open f.inputFile = .ok text)
    (hpool : w.SetupResolverPool rl = none) :
    main w f schedule =
      ⟨tr ++ [.Open f.inputFile, .SetupResolverPool rl], ["Failed to init pool"], .exit 0⟩ := by
  unfold main
  rw [if_neg hin, hrl]
  simp only [hopen, hpool]

theorem main_resolver_file_error (w : World) (f : Flags) (schedule : List Action) (err : String)
    (hin : f.inputFile ≠ "") (hpub : f.PublicDNS = false) (hrf : f.resolverFile ≠ "")
    (hopen : w.Open f.resolverFile = .error err) :
    main w f schedule = ⟨[.Open f.resolverFile], [], .panic err⟩ := by
  unfold main resolversList
  rw [if_neg hin]
  simp only [hpub, Bool.false_eq_true, if_false, if_pos hrf, hopen]

theorem resolversList_no_resolve (w : World) (f : Flags) (d : String) :
    Event.Resolve d ∉ (resolversList w f).1 := by
  unfold resolversList publicDNSResolvers
  split_ifs
  · simp
  · simp
  · simp
  · simp
  · split <;> simp
  · simp

/-- C5, as the code has it: in public-discovery mode the list handed to pool
construction is the country-specific list when its fetch succeeds with at least
50 entries (they are deduplicated); otherwise, when the country code is not
"us" and the fetch of the "us" list succeeds, it is the "us" list whatever its
length; in every other case it is empty. -/
theorem publicDNS_resolver_list (w : World) (f : Flags) (hpub : f.PublicDNS = true) :
    (resolversList w f).2 = .ok (publicDNSResolvers w).2 ∧
    (∀ schedule text, f.inputFile ≠ "" → w.Open f.inputFile = .ok text →
      Event.SetupResolverPool (publicDNSResolvers w).2 ∈ (main w f schedule).trace) ∧
    ((getWordlistByURL w (publicDNSResolverBaseURL ++ countryCode w ++ ".txt")).2 = none ∧
        50 ≤ (getWordlistByURL w (publicDNSResolverBaseURL ++ countryCode w ++ ".txt")).1.length →
      (publicDNSResolvers w).2 =
        Deduplicate w (getWordlistByURL w (publicDNSResolverBaseURL ++ countryCode w ++ ".txt")).1) ∧
    (¬ ((getWordlistByURL w (publicDNSResolverBaseURL ++ countryCode w ++ ".txt")).2 = none ∧
        50 ≤ (getWordlistByURL w (publicDNSResolverBaseURL ++ countryCode w ++ ".txt")).1.length) →
      (countryCode w ≠ "us" →
        (getWordlistByURL w (publicDNSResolverBaseURL ++ "us.txt")).2 = none →
        (publicDNSResolvers w).2 =
          Deduplicate w (getWordlistByURL w (publicDNSResolverBaseURL ++ "us.txt")).1) ∧
      (countryCode w = "us" ∨
          (getWordlistByURL w (publicDNSResolverBaseURL ++ "us.txt")).2 ≠ none →
        (publicDNSResolvers w).2 = [])) ∧
    (∀ url, (getWordlistByURL w url).2 = none ↔ ∃ page, w.RequestWebPage url = .ok page) ∧
    (w.lawful → ∀ url, (getWordlistByURL w url).1.Nodup) := by
  have hrl : resolversList w f = ((publicDNSResolvers w).1, .ok (publicDNSResolvers w).2) := by
    unfold resolversList
    rw [if_pos hpub]
  refine ⟨by rw [hrl], ?_, ?_, ?_, getWordlistByURL_ok_iff w, getWordlistByURL_nodup w⟩
  · intro schedule text hin hopen
    exact setupResolverPool_in_trace w f schedule _ _ text hin hrl hopen
  · intro h
    unfold publicDNSResolvers
    rw [if_pos h]
  · intro h
    constructor
    · intro hcc hus
      unfold publicDNSResolvers
      rw [if_neg h, if_pos hcc, if_pos hus]
    · intro hcase
      unfold publicDNSResolvers
      rw [if_neg h]
      rcases hcase with hcc | hus
      · rw [if_neg (by simpa using hcc)]
      · split_ifs <;> rfl

/-- The theorem above at a concrete input:
the directory serves one entry for "us" only, the
country code is "de", and the list is that entry. -/
theorem publicDNS_resolver_list_witness :
    (publicDNSResolvers shortListWorld).2 = ["9.9.9.9"] ∧
    (resolversList shortListWorld ⟨"domains.txt", 5, "", false, true⟩).2 =
      .ok (publicDNSResolvers shortListWorld).2 :=
  ⟨by decide,
    (publicDNS_resolver_list shortListWorld ⟨"domains.txt", 5, "", false, true⟩ rfl).1⟩

/-- Without the correction the statement fails:
when both fetches fail the list handed to
pool construction is empty, not the built-in list, and a "us" list of fewer
than 50 entries is used as it is. -/
theorem publicDNS_has_no_default_fallback :
    (publicDNSResolvers demoWorld).2 = [] ∧
    Event.SetupResolverPool [] ∈
      (main demoWorld ⟨"domains.txt", 5, "", false, true⟩ []).trace ∧
    (main demoWorld ⟨"domains.txt", 5, "", false, true⟩ []).stdout = ["Failed to init pool"] ∧
    (publicDNSResolvers shortListWorld).2 = ["9.9.9.9"] ∧
    Event.SetupResolverPool ["9.9.9.9"] ∈
      (main shortListWorld ⟨"domains.txt", 5, "", false, true⟩ []).trace ∧
    defaultResolvers.length = 8 := by
  refine ⟨?_, ?_, ?_, ?_, ?_, ?_⟩ <;> decide

/-- C6, as the code has it: with a non-empty input path, the public-discovery
flag off and a resolver file that cannot be opened, the run panics with the
error of `os.Open` after that one call: no call to the network has been made
and nothing is printed. -/
theorem unreadable_resolver_file_aborts (w : World) (f : Flags) (schedule : List Action)
    (err : String) (hin : f.inputFile ≠ "") (hpub : f.PublicDNS = false)
    (hrf : f.resolverFile ≠ "") (hopen : w.Open f.resolverFile = .error err) :
    (main w f schedule).exit = .panic err ∧
    (main w f schedule).trace = [.Open f.resolverFile] ∧
    (∀ e ∈ (main w f schedule).trace, e.isNetwork = false) ∧
    (main w f schedule).stdout = [] := by
  rw [main_resolver_file_error w f schedule err hin hpub hrf hopen]
  simp [Event.isNetwork]

/-- The theorem above at a concrete input:
the resolver file `missing.txt` does not exist. -/
theorem unreadable_resolver_file_aborts_witness :
    (main demoWorld ⟨"domains.txt", 5, "missing.txt", false, false⟩ []).exit =
      .panic "no such file or directory" ∧
    (main demoWorld ⟨"domains.txt", 5, "missing.txt", false, false⟩ []).trace =
      [.Open "missing.txt"] :=
  ⟨(unreadable_resolver_file_aborts demoWorld ⟨"domains.txt", 5, "missing.txt", false, false⟩ []
      "no such file or directory" (by decide) rfl (by decide) rfl).1,
    (unreadable_resolver_file_aborts demoWorld ⟨"domains.txt", 5, "missing.txt", false, false⟩ []
      "no such file or directory" (by decide) rfl (by decide) rfl).2.1⟩

/-- Without the correction the statement fails:
with the public-discovery flag set the
resolver file is never opened, and the geolocation lookup, the fetches and the
pool setup are made although the file cannot be opened. -/
theorem public_flag_overrides_resolver_file :
    demoWorld.Open "missing.txt" = .error "no such file or directory" ∧
    (main demoWorld ⟨"domains.txt", 5, "missing.txt", false, true⟩ []).trace =
      [.ClientCountryCode, .RequestWebPage "https://public-dns.info/nameserver/de.txt",
        .RequestWebPage "https://public-dns.info/nameserver/us.txt", .Open "domains.txt",
        .SetupResolverPool []] ∧
    (∃ e ∈ (main demoWorld ⟨"domains.txt", 5, "missing.txt", false, true⟩ []).trace,
      e.isNetwork = true) ∧
    (main shortListWorld ⟨"domains.txt", 5, "missing.txt", false, true⟩ []).exit = .returned ∧
    (main shortListWorld ⟨"domains.txt", 5, "missing.txt", false, true⟩ []).stdout =
      ["example.com,93.184.216.34"] := by
  refine ⟨rfl, by decide, ⟨.ClientCountryCode, by decide, rfl⟩, by decide, by decide⟩

/-- C7, as the code has it: an absent input path prints a message and exits
with status 0 before any call; a resolver file or an input file that cannot be
opened ends the run by a panic carrying the error, with status 2; a nil
resolver pool prints "Failed to init pool" and exits with status 0.  In
none of these runs has a lookup been made. -/
theorem setup_failure_exits (w : World) (f : Flags) (schedule : List Action) :
    (f.inputFile = "" →
      (main w f schedule).exit = .exit 0 ∧
      (main w f schedule).stdout = ["Please check your input file."] ∧
      (main w f schedule).trace = []) ∧
    (∀ err, f.inputFile ≠ "" → f.PublicDNS = false → f.resolverFile ≠ "" →
      w.Open f.resolverFile = .error err →
      (main w f schedule).exit = .panic err ∧ (main w f schedule).exit.status = some 2 ∧
      (main w f schedule).stdout = [] ∧ ∀ d, Event.Resolve d ∉ (main w f schedule).trace) ∧
    (∀ tr rl err, f.inputFile ≠ "" → resolversList w f = (tr, .ok rl) →
      w.Open f.inputFile = .error err →
      (main w f schedule).exit = .panic err ∧ (main w f schedule).exit.status = some 2 ∧
      (main w f schedule).stdout = [] ∧ ∀ d, Event.Resolve d ∉ (main w f schedule).trace) ∧
    (∀ tr rl text, f.inputFile ≠ "" → resolversList w f = (tr, .ok rl) →
      w.Open f.inputFile = .ok text → w.SetupResolverPool rl = none →
      (main w f schedule).exit = .exit 0 ∧ (main w f schedule).exit.status = some 0 ∧
      (main w f schedule).stdout = ["Failed to init pool"] ∧
      ∀ d, Event.Resolve d ∉ (main w f schedule).trace) := by
  refine ⟨?_, ?_, ?_, ?_⟩
  · intro hin
    unfold main
    rw [if_pos hin]
    exact ⟨rfl, rfl, rfl⟩
  · intro err hin hpub hrf hopen
    rw [main_resolver_file_error w f schedule err hin hpub hrf hopen]
    exact ⟨rfl, rfl, rfl, fun d hd => by simp at hd⟩
  · intro tr rl err hin hrl hopen
    have hm : main w f schedule = ⟨tr ++ [.Open f.inputFile], [], .panic err⟩ := by
      unfold main
      rw [if_neg hin, hrl]
      simp only [hopen]
    have htr := resolversList_no_resolve w f
    rw [hrl] at htr
    rw [hm]
    refine ⟨rfl, rfl, rfl, fun d hd => ?_⟩
    rcases List.mem_append.1 hd with h | h
    · exact htr d h
    · simp at h
  · intro tr rl text hin hrl hopen hpool
    have htr := resolversList_no_resolve w f
    rw [hrl] at htr
    rw [main_pool_nil w f schedule tr rl text hin hrl hopen hpool]
    refine ⟨rfl, rfl, rfl, fun d hd => ?_⟩
    rcases List.mem_append.1 hd with h | h
    · exact htr d h
    · simp at h

/-- The theorem above at a concrete input:
no pool can be built from the built-in list. -/
theorem setup_failure_exits_witness :
    (main noPoolWorld ⟨"domains.txt", 5, "", false, false⟩ []).exit = .exit 0 ∧
    (main noPoolWorld ⟨"domains.txt", 5, "", false, false⟩ []).stdout =
      ["Failed to init pool"] :=
  ⟨((setup_failure_exits noPoolWorld ⟨"domains.txt", 5, "", false, false⟩ []).2.2.2 []
      defaultResolvers "Example.COM\nexample.com\n" (by decide) rfl rfl rfl).1,
    ((setup_failure_exits noPoolWorld ⟨"domains.txt", 5, "", false, false⟩ []).2.2.2 []
      defaultResolvers "Example.COM\nexample.com\n" (by decide) rfl rfl rfl).2.2.1⟩

/-- Without the correction the statement fails:
with an input path given, a nil resolver
pool ends the run with exit status 0. -/
theorem nil_pool_exits_with_status_zero :
    (⟨"domains.txt", 5, "", false, false⟩ : Flags).inputFile ≠ "" ∧
    noPoolWorld.SetupResolverPool defaultResolvers = none ∧
    (main noPoolWorld ⟨"domains.txt", 5, "", false, false⟩ []).stdout =
      ["Failed to init pool"] ∧
    (main noPoolWorld ⟨"domains.txt", 5, "", false, false⟩ []).exit.status = some 0 := by
  refine ⟨by decide, rfl, by decide, by decide⟩

/-! ## Further properties -/

theorem firstOccurrences_of_nodup (l : List String) (h : l.Nodup) : firstOccurrences l = l := by
  induction l with
  | nil => rfl
  | cons a as ih =>
    obtain ⟨ha, has⟩ := List.nodup_cons.1 h
    rw [firstOccurrences, ih has]
    congr 1
    apply List.filter_eq_self.2
    intro y hy
    have : y ≠ a := fun e => ha (e ▸ hy)
    simpa using this

/-- Running `removeDuplicated` on its own result changes nothing, and so does
running the aggregator's last step twice. -/
theorem removeDuplicated_idempotent (xs : List String) :
    removeDuplicated (removeDuplicated xs) = removeDuplicated xs := by
  rw [removeDuplicated_eq_firstOccurrences (removeDuplicated xs),
    removeDuplicated_eq_firstOccurrences xs]
  exact firstOccurrences_of_nodup _ (nodup_firstOccurrences xs)

/-- With one worker every job is received and looked up exactly once, in the
order of the input, and at `wg.Wait()` the channel is empty and the worker has
left its loop. -/
theorem one_worker_looks_up_every_job_once (pool : Pool) (jobs : List String)
    (schedule : List Action) :
    (runWorkers pool 1 jobs schedule).resolves = jobs ∧
    (runWorkers pool 1 jobs schedule).jobChan = [] ∧
    (runWorkers pool 1 jobs schedule).workers 0 = .finished ∧
    (runWorkers pool 1 jobs schedule).fault = false :=
  ⟨runWorkers_one_resolves pool jobs schedule, runWorkers_one_jobChan_nil pool jobs schedule,
    (runWorkers_one pool (fun _ => True) (fun _ _ _ => trivial) jobs schedule trivial).2.2,
    (runWorkers_one pool (fun _ => True) (fun _ _ _ => trivial) jobs schedule trivial).2.1⟩

/-- With one worker nothing is lost: at `wg.Wait()` the collection holds the
answers of every lookup, batch after batch in the order of the input. -/
theorem one_worker_collects_every_answer (pool : Pool) (jobs : List String)
    (schedule : List Action) :
    (runWorkers pool 1 jobs schedule).answers = collectFrom pool 0 jobs :=
  runWorkers_one_answers pool jobs schedule

/-- Without the public-discovery flag and without a resolver file the resolver
list is the built-in one, eight distinct endpoints, and no call is made to
obtain it. -/
theorem default_resolver_list (w : World) (f : Flags) (hpub : f.PublicDNS = false)
    (hrf : f.resolverFile = "") :
    resolversList w f = ([], .ok defaultResolvers) ∧ defaultResolvers.length = 8 ∧
      defaultResolvers.Nodup := by
  refine ⟨?_, by decide, by decide⟩
  unfold resolversList
  simp [hpub, hrf]

/-- The statement above in `demoWorld`. -/
theorem default_resolver_list_witness :
    resolversList demoWorld ⟨"domains.txt", 5, "", false, false⟩ = ([], .ok defaultResolvers) :=
  (default_resolver_list demoWorld ⟨"domains.txt", 5, "", false, false⟩ rfl rfl).1

/-- With one worker: the names looked up are the input lines lower-cased, in
the order of the input, and lines that differ only in the case of ASCII letters
give the same job string; for an input of the two lines `Example.COM` and
`example.com` and a pool that answers the name `example.com` always with the
same records, all of one name and one globally routable address, both lookups
are for `example.com` and the program prints exactly one line, in both output
modes. -/
theorem one_worker_case_insensitive_input_one_line (w : World) (f : Flags)
    (schedule : List Action) (rl : List String) (text : String) (pool : Pool)
    (L : List DNSAnswer) (name addr : String)
    (hin : f.inputFile ≠ "") (hrl : (resolversList w f).2 = .ok rl)
    (hopen : w.Open f.inputFile = .ok text)
    (hlines : scanLines text = ["Example.COM", "example.com"])
    (hpool : w.SetupResolverPool rl = some pool) (hthreads : f.threads = 1)
    (hcap : 2 ≤ w.maxChanSize)
    (hres : ∀ k, pool k "example.com" = some L) (hL : L ≠ [])
    (hrec : ∀ a ∈ L, a.Name = name ∧ a.Data = addr)
    (hglobal : IsGlobalUnicast (ParseIP addr) = true) :
    (∀ (input : String) (p : Pool) (sched : List Action),
      (runWorkers p 1 (jobsOf w input) sched).resolves =
        (scanLines input).map (ToLower w.unicodeToLower)) ∧
    (∀ s t, differOnlyInCase s t → ToLower w.unicodeToLower s = ToLower w.unicodeToLower t) ∧
    (main w f schedule).trace =
      (resolversList w f).1 ++ [.Open f.inputFile, .SetupResolverPool rl,
        .Resolve "example.com", .Resolve "example.com"] ∧
    (main w f schedule).stdout =
      [if f.onlyIp then (ParseIP addr).String else name ++ "," ++ (ParseIP addr).String] ∧
    (main w f schedule).exit = .returned := by
  have hjobs : jobsOf w text = ["example.com", "example.com"] := by
    unfold jobsOf
    rw [hlines]
    have e1 : ToLower w.unicodeToLower "Example.COM" = "example.com" := rfl
    have e2 : ToLower w.unicodeToLower "example.com" = "example.com" := rfl
    simp only [List.map_cons, List.map_nil, e1, e2]
  rcases hres' : resolversList w f with ⟨tr, r⟩
  rw [hres'] at hrl
  simp only at hrl
  subst hrl
  rw [main_one_worker w f schedule tr rl text pool hin hres' hopen hpool hthreads hcap, hjobs]
  refine ⟨fun input p sched => runWorkers_one_resolves p (jobsOf w input) sched,
    fun s t h => ToLower_differOnlyInCase _ s t h, by simp, ?_, rfl⟩
  have hcol : collectFrom pool 0 ["example.com", "example.com"] = L ++ L := by
    simp [collectFrom, hres, batch_some_of_ne_nil L hL]
  simp only [hcol]
  obtain ⟨a, ha⟩ := List.exists_mem_of_ne_nil _ hL
  apply eq_singleton_of_nodup (nodup_aggregate _ _)
  · intro hnil
    have : formatLine f.onlyIp a ∈ aggregate f.onlyIp (L ++ L) :=
      (mem_aggregate _ _ _).2 ⟨a, by simp [ha], by rw [(hrec a ha).2]; exact hglobal, rfl⟩
    rw [hnil] at this
    simp at this
  · intro x hx
    obtain ⟨b, hb, -, rfl⟩ := (mem_aggregate _ _ _).1 hx
    have hbL := hrec b (by simpa using hb)
    unfold formatLine sprintfPair
    rw [hbL.1, hbL.2]

/-- The statement above at the two-line file of `demoWorld`, with the built-in
resolvers: the two answers collected give one line. -/
theorem one_worker_case_insensitive_input_one_line_witness :
    ToLower demoWorld.unicodeToLower "Example.COM" =
      ToLower demoWorld.unicodeToLower "example.com" ∧
    (runWorkers echoPool 1 ["example.com", "example.com"] []).answers =
      [⟨"example.com", 1, 0, "93.184.216.34"⟩, ⟨"example.com", 1, 0, "93.184.216.34"⟩] ∧
    (main demoWorld ⟨"domains.txt", 1, "", false, false⟩ [.step 0, .step 0]).stdout =
      ["example.com,93.184.216.34"] ∧
    (main demoWorld ⟨"domains.txt", 1, "", true, false⟩ [.step 0, .step 0]).stdout =
      ["93.184.216.34"] :=
  ⟨(one_worker_case_insensitive_input_one_line demoWorld ⟨"domains.txt", 1, "", false, false⟩
      [.step 0, .step 0] defaultResolvers "Example.COM\nexample.com\n" echoPool
      [⟨"example.com", 1, 0, "93.184.216.34"⟩] "example.com" "93.184.216.34"
      (by decide) (by rfl) (by rfl) (by decide) (by rfl) (by rfl) (by decide) (fun _ => rfl)
      (by simp) (by simp) (by decide)).2.1 "Example.COM" "example.com" (by decide),
    by decide,
    (one_worker_case_insensitive_input_one_line demoWorld ⟨"domains.txt", 1, "", false, false⟩
      [.step 0, .step 0] defaultResolvers "Example.COM\nexample.com\n" echoPool
      [⟨"example.com", 1, 0, "93.184.216.34"⟩] "example.com" "93.184.216.34"
      (by decide) (by rfl) (by rfl) (by decide) (by rfl) (by rfl) (by decide) (fun _ => rfl)
      (by simp) (by simp) (by decide)).2.2.2.1,
    (one_worker_case_insensitive_input_one_line demoWorld ⟨"domains.txt", 1, "", true, false⟩
      [.step 0, .step 0] defaultResolvers "Example.COM\nexample.com\n" echoPool
      [⟨"example.com", 1, 0, "93.184.216.34"⟩] "example.com" "93.184.216.34"
      (by decide) (by rfl) (by rfl) (by decide) (by rfl) (by rfl) (by decide) (fun _ => rfl)
      (by simp) (by simp) (by decide)).2.2.2.1⟩

end IPResolver
